import Mathlib

/-!
# rpool: a bounded pool of closeable readers

Shallow embedding of `channel.go`, `file.go` and `pool.go`, executed
sequentially (one goroutine).

* A resource (`iocommon.ReadSeekCloser` value) is identified by a number; an
  interface value is `Conn = Option Res`, `none` being Go's `nil`.
* The buffered channel `readers` is a record with its capacity and the queued
  values, front first; a nil channel is `none`.
* The factory and the resources' own `Close` are collaborators: they are
  oracles indexed by how many calls have been made so far, and the state keeps
  the number of factory calls and the log of resource closes.
* Calling a method on a nil interface or calling a nil func is a run-time
  panic; a send on a full channel with no other goroutine never completes.
  Both are explicit outcomes.
* The methods are first given on the state of one pool, every lease operation
  being applied to that pool's state. The back-reference `PoolReader.c` is
  added in the last section, where pool objects live in a heap by address.
* `Read` and `Seek` of the resources are parameters; `PoolReader` has them by
  promotion from its embedded interface field.
* `make(chan, maxCap)` panics when `maxCap` exceeds what the platform can
  allocate; that bound is a parameter of `NewChannelPool`. Go's `int` arguments
  are integers; no arithmetic on them can overflow here (the loop counter stays
  below `initialCap`).
-/

namespace rpool

/-- Identity of a (non-nil) resource. -/
abbrev Res := Nat

/-- An interface value of type `iocommon.ReadSeekCloser`; `none` is `nil`. -/
abbrev Conn := Option Res

/-- Go `error` values (non-nil ones): the package sentinel `ErrClosed` and any
other error value, known by its message. -/
inductive Error where
  | ErrClosed
  | msg (text : String)
deriving DecidableEq, Repr

/-- The `Error()` method: the message of an error value. -/
def Error.message : Error → String
  | .ErrClosed => "pool is closed"
  | .msg t => t

/-- The `Factory` func type: result `(conn, err)` of the call made when `k`
calls have been made before. -/
abbrev Factory := Nat → Conn × Option Error

/-- The resources' own `Close`: result of closing resource `r` when `k` resource
closes have been made before. -/
abbrev CloseFn := Res → Nat → Option Error

/-- A non-nil buffered channel of `iocommon.ReadSeekCloser`. -/
structure Chan where
  cap : Nat
  buf : List Conn
deriving DecidableEq, Repr

/-- The struct `channelPool` (the mutex is not modelled). -/
structure channelPool where
  readers : Option Chan
  factory : Option Factory

/-- The pool together with the effects on its collaborators. -/
structure State where
  pool : channelPool
  calls : Nat
  closed : List Res

/-- The struct `PoolReader` without its mutex; the back-reference `c` is carried
by `Lease`. -/
structure PoolReader where
  ReadSeekCloser : Conn
  unusable : Bool
deriving DecidableEq, Repr

/-- How a call without result value ends. -/
inductive Exit where
  | returned
  | panicked
deriving DecidableEq, Repr

/-- How `NewChannelPool` ends: `ok` returns `(c, nil)` for the pool of the
final state, `err e` returns `(nil, e)`, `panicked` is a run-time panic,
`stalled` a send that never completes. -/
inductive NewResult where
  | ok
  | err (e : Error)
  | panicked
  | stalled
deriving DecidableEq, Repr

/-- How `Get` ends: `ok l` returns `(l, nil)`, `err e` returns `(nil, e)`. -/
inductive GetResult where
  | ok (l : PoolReader)
  | err (e : Error)
  | panicked
deriving DecidableEq, Repr

/-- The call `r.Close()` on a non-nil resource. -/
def closeRes (closeOf : CloseFn) (r : Res) (s : State) : Option Error × State :=
  (closeOf r s.closed.length, { s with closed := s.closed ++ [r] })

/-- The state with the channel's queue replaced. -/
def setBuf (s : State) (ch : Chan) (buf : List Conn) : State :=
  { s with pool := { s.pool with readers := some { ch with buf := buf } } }

/-- The method `(c *channelPool) wrap`. -/
def wrap (reader : Conn) : PoolReader :=
  { ReadSeekCloser := reader, unusable := false }

/-- The loop `for conn := range readers { conn.Close() }` of
`channelPool.Close` over the queued values. -/
def drain (closeOf : CloseFn) : List Conn → State → Exit × State
  | [], s => (.returned, s)
  | none :: _, s => (.panicked, s)
  | some r :: rest, s => drain closeOf rest (closeRes closeOf r s).2

/-- The method `(c *channelPool) Close`. -/
def Close (closeOf : CloseFn) (s : State) : Exit × State :=
  let s' : State := { s with pool := { readers := none, factory := none } }
  match s.pool.readers with
  | none => (.returned, s')
  | some ch => drain closeOf ch.buf s'

/-- The method `(c *channelPool) Len`. -/
def Len (s : State) : Nat :=
  match s.pool.readers with
  | none => 0
  | some ch => ch.buf.length

/-- The method `(c *channelPool) Get`. -/
def Get (s : State) : GetResult × State :=
  match s.pool.readers with
  | none => (.err .ErrClosed, s)
  | some ch =>
    match ch.buf with
    | conn :: rest =>
      match conn with
      | none => (.err .ErrClosed, setBuf s ch rest)
      | some r => (.ok (wrap (some r)), setBuf s ch rest)
    | [] =>
      match s.pool.factory with
      | none => (.panicked, s)
      | some factory =>
        match factory s.calls with
        | (_, some err) => (.err err, { s with calls := s.calls + 1 })
        | (conn, none) => (.ok (wrap conn), { s with calls := s.calls + 1 })

/-- The method `(c *channelPool) put`. -/
def put (closeOf : CloseFn) (conn : Conn) (s : State) : Option Error × State :=
  match conn with
  | none => (some (.msg "reader is nil. rejecting"), s)
  | some r =>
    match s.pool.readers with
    | none => closeRes closeOf r s
    | some ch =>
      if ch.buf.length < ch.cap then (none, setBuf s ch (ch.buf ++ [some r]))
      else closeRes closeOf r s

/-- The method `(p *PoolReader) Close`, on the state of the pool `p.c`. -/
def PoolReader.Close (closeOf : CloseFn) (p : PoolReader) (s : State) :
    Option Error × State :=
  if p.unusable then
    match p.ReadSeekCloser with
    | some r => closeRes closeOf r s
    | none => (none, s)
  else put closeOf p.ReadSeekCloser s

/-- The method `(p *PoolReader) MarkUnusable`. -/
def PoolReader.MarkUnusable (p : PoolReader) : PoolReader :=
  { p with unusable := true }

/-- The pre-fill loop of `NewChannelPool` with `n` iterations left. -/
def fill (closeOf : CloseFn) (factory : Option Factory) : Nat → State → NewResult × State
  | 0, s => (.ok, s)
  | n + 1, s =>
    match factory with
    | none => (.panicked, s)
    | some f =>
      match f s.calls with
      | (_, some err) =>
        match Close closeOf { s with calls := s.calls + 1 } with
        | (.panicked, s') => (.panicked, s')
        | (.returned, s') =>
          (.err (.msg ("factory is not able to fill the pool: " ++ err.message)), s')
      | (conn, none) =>
        match s.pool.readers with
        | none => (.stalled, { s with calls := s.calls + 1 })
        | some ch =>
          if ch.buf.length < ch.cap then
            fill closeOf factory n (setBuf { s with calls := s.calls + 1 } ch (ch.buf ++ [conn]))
          else (.stalled, { s with calls := s.calls + 1 })

/-- The largest capacity `make(chan iocommon.ReadSeekCloser, n)` accepts on a
64-bit platform: `(maxAlloc - hchanSize) / 16` with `maxAlloc = 2^48`, 16-byte
elements and a 96-byte channel header, that is `2^44 - 6`. The concrete runs
below are made on such a platform. -/
def chanMax64 : Nat := 17592186044410

/-- The function `NewChannelPool`, started when `calls` factory calls and the
resource closes `closed` have already happened. `chanMax` is the largest
capacity for which the platform's `make(chan iocommon.ReadSeekCloser, n)`
returns; beyond it `make` panics ("makechan: size out of range"). On a
validation failure or such a panic no pool object is built; the state then
shows a nil one. -/
def NewChannelPool (closeOf : CloseFn) (chanMax : Nat) (initialCap maxCap : Int)
    (factory : Option Factory) (calls : Nat) (closed : List Res) : NewResult × State :=
  if initialCap < 0 ∨ maxCap ≤ 0 ∨ initialCap > maxCap then
    (.err (.msg "invalid capacity settings"),
      { pool := { readers := none, factory := none }, calls := calls, closed := closed })
  else if (chanMax : Int) < maxCap then
    (.panicked,
      { pool := { readers := none, factory := none }, calls := calls, closed := closed })
  else
    fill closeOf factory initialCap.toNat
      { pool := { readers := some { cap := maxCap.toNat, buf := [] }, factory := factory },
        calls := calls, closed := closed }

/-! ## Sequences of calls by one client -/

/-- One call of the client: on the pool, or on the lease it obtained from its
`i`-th successful `Get`. -/
inductive Op where
  | get
  | leaseClose (i : Nat)
  | markUnusable (i : Nat)
  | poolClose
  | len
deriving DecidableEq, Repr

/-- What the client sees of one call. -/
inductive Obs where
  | got (r : GetResult)
  | closedLease (e : Option Error)
  | length (n : Nat)
  | done (x : Exit)
  | noLease
deriving DecidableEq, Repr

/-- The pool state and the leases handed out so far, oldest first. -/
structure Sys where
  st : State
  leases : List PoolReader

/-- One call and its effect. A panic is observed and the state it leaves is
kept. -/
def step (closeOf : CloseFn) (y : Sys) : Op → Obs × Sys
  | .get =>
    match Get y.st with
    | (.ok l, s) => (.got (.ok l), { st := s, leases := y.leases ++ [l] })
    | (r, s) => (.got r, { y with st := s })
  | .leaseClose i =>
    match y.leases.get? i with
    | none => (.noLease, y)
    | some l => ((.closedLease (l.Close closeOf y.st).1), { y with st := (l.Close closeOf y.st).2 })
  | .markUnusable i =>
    match y.leases.get? i with
    | none => (.noLease, y)
    | some l => (.done .returned, { y with leases := y.leases.set i l.MarkUnusable })
  | .poolClose => (.done (Close closeOf y.st).1, { y with st := (Close closeOf y.st).2 })
  | .len => (.length (Len y.st), y)

/-- The state after a sequence of calls. -/
def run (closeOf : CloseFn) (y : Sys) : List Op → Sys
  | [] => y
  | o :: os => run closeOf (step closeOf y o).2 os

/-- The observations of a sequence of calls, in order. -/
def observe (closeOf : CloseFn) (y : Sys) : List Op → List Obs
  | [] => []
  | o :: os => (step closeOf y o).1 :: observe closeOf (step closeOf y o).2 os

/-! ## Construction -/

/-- The results of the `n` factory calls starting at call number `calls`. -/
def produced (f : Factory) (calls n : Nat) : List Conn :=
  (List.range n).map (fun i => (f (calls + i)).1)

theorem produced_succ (f : Factory) (calls n : Nat) :
    produced f calls (n + 1) = (f calls).1 :: produced f (calls + 1) n := by
  unfold produced
  rw [List.range_succ_eq_map]
  simp only [List.map_cons, List.map_map, Nat.add_zero]
  congr 1
  apply List.map_congr_left
  intro i _
  simp only [Function.comp_apply]
  congr 2
  omega

theorem length_produced (f : Factory) (calls n : Nat) : (produced f calls n).length = n := by
  simp [produced]

/-- Pre-fill with a factory whose next `n` calls report no error runs to the
end: every result is queued, in call order. -/
theorem fill_ok (closeOf : CloseFn) (f : Factory) (n : Nat) :
    ∀ (s : State) (ch : Chan), s.pool.readers = some ch → ch.buf.length + n ≤ ch.cap →
      (∀ i, i < n → (f (s.calls + i)).2 = none) →
      fill closeOf (some f) n s =
        (.ok, setBuf { s with calls := s.calls + n } ch (ch.buf ++ produced f s.calls n)) := by
  induction n with
  | zero =>
    intro s ch hs _ _
    obtain ⟨⟨rd, fa⟩, c, cl⟩ := s
    obtain ⟨cp, bf⟩ := ch
    simp only at hs
    subst hs
    simp [fill, setBuf, produced]
  | succ n ih =>
    intro s ch hs hcap hf
    have h0 : (f s.calls).2 = none := by simpa using hf 0 (Nat.succ_pos n)
    have hlt : ch.buf.length < ch.cap := by omega
    have hstep : fill closeOf (some f) (n + 1) s =
        fill closeOf (some f) n
          (setBuf { s with calls := s.calls + 1 } ch (ch.buf ++ [(f s.calls).1])) := by
      rw [fill]
      rcases hfc : f s.calls with ⟨conn, e⟩
      rw [hfc] at h0
      simp only at h0
      subst h0
      simp only [hs, hlt, if_true]
    rw [hstep, ih _ { ch with buf := ch.buf ++ [(f s.calls).1] } rfl
      (by simp only [List.length_append, List.length_singleton]; omega)
      (by
        intro i hi
        have := hf (i + 1) (by omega)
        simpa [setBuf, Nat.add_assoc, Nat.add_comm 1 i] using this)]
    simp only [setBuf, produced_succ, List.append_assoc, List.singleton_append, Nat.add_assoc,
      Nat.add_comm 1 n]

/-- Draining a queue of non-nil resources closes each of them, front first. -/
theorem drain_somes (closeOf : CloseFn) (rs : List Res) :
    ∀ s : State, drain closeOf (rs.map some) s =
      (.returned, { s with closed := s.closed ++ rs }) := by
  induction rs with
  | nil => intro s; simp [drain]
  | cons r rs ih =>
    intro s
    simp only [List.map_cons, drain, closeRes, ih, List.append_assoc, List.singleton_append]

/-- Pre-fill whose first calls yield the non-nil resources `rs` and whose next
call reports the error `e`: the pool is shut down, the resources queued so far
are closed front first, and the formatted error is returned. -/
theorem fill_fail (closeOf : CloseFn) (f : Factory) (e : Error) (rs : List Res) :
    ∀ (n : Nat) (s : State) (ch : Chan) (pre : List Res), s.pool.readers = some ch →
      ch.buf = pre.map some → ch.buf.length + rs.length ≤ ch.cap → rs.length < n →
      (∀ i r, rs[i]? = some r → f (s.calls + i) = (some r, none)) →
      (f (s.calls + rs.length)).2 = some e →
      fill closeOf (some f) n s =
        (.err (.msg ("factory is not able to fill the pool: " ++ e.message)),
          { pool := { readers := none, factory := none },
            calls := s.calls + rs.length + 1, closed := s.closed ++ (pre ++ rs) }) := by
  induction rs with
  | nil =>
    intro n s ch pre hs hb _ hn _ he
    obtain ⟨n, rfl⟩ : ∃ k, n = k + 1 := ⟨n - 1, by simp at hn; omega⟩
    rw [fill]
    rcases hfc : f s.calls with ⟨conn, e'⟩
    simp only [List.length_nil, Nat.add_zero, hfc] at he
    subst he
    simp only [Close, hs, hb, drain_somes, List.length_nil, Nat.add_zero, List.append_nil]
  | cons r rs ih =>
    intro n s ch pre hs hb hcap hn hf he
    obtain ⟨n, rfl⟩ : ∃ k, n = k + 1 := ⟨n - 1, by simp at hn; omega⟩
    have h0 : f s.calls = (some r, none) := by simpa using hf 0 r (by simp)
    have hlt : ch.buf.length < ch.cap := by simp at hcap; omega
    rw [fill]
    simp only [h0, hs, hlt, if_true]
    rw [ih n _ { ch with buf := ch.buf ++ [some r] } (pre ++ [r]) rfl (by simp [hb])
      (by simp at hcap ⊢; omega) (by simp at hn; omega)
      (by
        intro i r' hi
        have := hf (i + 1) r' (by simpa using hi)
        simpa [setBuf, Nat.add_assoc, Nat.add_comm 1 i] using this)
      (by simpa [setBuf, Nat.add_assoc, Nat.add_comm 1 rs.length] using he)]
    simp [setBuf, Nat.add_assoc, Nat.add_comm 1 rs.length]

/-- Claim C2. Construction validation: when `initialCap < 0`, `maxCap <= 0` or
`initialCap > maxCap`, `NewChannelPool` returns no pool and the error
"invalid capacity settings"; the factory is not invoked and no resource is
closed, whatever the factory (a nil one included). -/
theorem NewChannelPool_invalid (closeOf : CloseFn) (chanMax : Nat) (initialCap maxCap : Int)
    (factory : Option Factory) (calls : Nat) (closed : List Res)
    (h : initialCap < 0 ∨ maxCap ≤ 0 ∨ initialCap > maxCap) :
    (NewChannelPool closeOf chanMax initialCap maxCap factory calls closed).1 =
        .err (.msg "invalid capacity settings") ∧
      (NewChannelPool closeOf chanMax initialCap maxCap factory calls closed).2.calls = calls ∧
      (NewChannelPool closeOf chanMax initialCap maxCap factory calls closed).2.closed = closed ∧
      (NewChannelPool closeOf chanMax initialCap maxCap factory calls closed).2.pool.readers = none := by
  simp only [NewChannelPool, h, if_true, and_self]

/-- The three invalid configurations of the specification, `(-1, 10)`,
`(5, 0)` and `(6, 5)`, each rejected without a factory call. -/
theorem NewChannelPool_invalid_witness :
    ((NewChannelPool (fun _ _ => none) chanMax64 (-1) 10 (some (fun k => (some k, none))) 0 []).1 =
        .err (.msg "invalid capacity settings") ∧
      (NewChannelPool (fun _ _ => none) chanMax64 (-1) 10 (some (fun k => (some k, none))) 0 []).2.calls = 0) ∧
    ((NewChannelPool (fun _ _ => none) chanMax64 5 0 (some (fun k => (some k, none))) 0 []).1 =
        .err (.msg "invalid capacity settings") ∧
      (NewChannelPool (fun _ _ => none) chanMax64 5 0 (some (fun k => (some k, none))) 0 []).2.calls = 0) ∧
    ((NewChannelPool (fun _ _ => none) chanMax64 6 5 (some (fun k => (some k, none))) 0 []).1 =
        .err (.msg "invalid capacity settings") ∧
      (NewChannelPool (fun _ _ => none) chanMax64 6 5 (some (fun k => (some k, none))) 0 []).2.calls = 0) :=
  ⟨⟨(NewChannelPool_invalid _ _ (-1) 10 _ 0 [] (by decide)).1,
      (NewChannelPool_invalid _ _ (-1) 10 _ 0 [] (by decide)).2.1⟩,
    ⟨(NewChannelPool_invalid _ _ 5 0 _ 0 [] (by decide)).1,
      (NewChannelPool_invalid _ _ 5 0 _ 0 [] (by decide)).2.1⟩,
    ⟨(NewChannelPool_invalid _ _ 6 5 _ 0 [] (by decide)).1,
      (NewChannelPool_invalid _ _ 6 5 _ 0 [] (by decide)).2.1⟩⟩

/-- Claim C3, as stated, fails: `NewChannelPool(0, 1<<44, f)` has a valid
configuration and a factory that always succeeds, but on a 64-bit platform
`make(chan iocommon.ReadSeekCloser, 1<<44)` panics, so no pool is returned. -/
theorem NewChannelPool_make_panics :
    (0 : Int) ≤ 0 ∧ (0 : Int) ≤ 17592186044416 ∧ (0 : Int) < 17592186044416 ∧
    (NewChannelPool (fun _ _ => none) chanMax64 0 17592186044416
      (some (fun k => (some k, none))) 0 []).1 = .panicked ∧
    (NewChannelPool (fun _ _ => none) chanMax64 0 17592186044416
      (some (fun k => (some k, none))) 0 []).1 ≠ .ok := by
  decide

/-- Claim C3, amended. Pre-fill: for `0 <= initialCap <= maxCap`, `maxCap > 0`
not larger than the largest capacity `chanMax` that `make` accepts, and a
factory none of whose calls reports an error, `NewChannelPool` returns a pool,
has invoked the factory exactly `initialCap` times and closed nothing, and the
pool has `Len() == initialCap`, its channel of capacity `maxCap` holding exactly
the factory's results in call order. -/
theorem NewChannelPool_prefill (closeOf : CloseFn) (chanMax : Nat) (f : Factory)
    (initialCap maxCap : Int) (calls : Nat) (closed : List Res)
    (h0 : 0 ≤ initialCap) (h1 : initialCap ≤ maxCap) (h2 : 0 < maxCap)
    (hmax : maxCap ≤ chanMax) (hf : ∀ k, (f k).2 = none) :
    (NewChannelPool closeOf chanMax initialCap maxCap (some f) calls closed).1 = .ok ∧
      (NewChannelPool closeOf chanMax initialCap maxCap (some f) calls closed).2.calls =
        calls + initialCap.toNat ∧
      (Len (NewChannelPool closeOf chanMax initialCap maxCap (some f) calls closed).2 : Int) =
        initialCap ∧
      (NewChannelPool closeOf chanMax initialCap maxCap (some f) calls closed).2.pool.readers =
        some { cap := maxCap.toNat, buf := produced f calls initialCap.toNat } ∧
      (NewChannelPool closeOf chanMax initialCap maxCap (some f) calls closed).2.closed =
        closed := by
  have hv : ¬ (initialCap < 0 ∨ maxCap ≤ 0 ∨ initialCap > maxCap) := by omega
  have hm : ¬ ((chanMax : Int) < maxCap) := by omega
  have hfill := fill_ok closeOf f initialCap.toNat
    { pool := { readers := some { cap := maxCap.toNat, buf := [] }, factory := some f },
      calls := calls, closed := closed }
    { cap := maxCap.toNat, buf := [] } rfl (by simp only [List.length_nil]; omega)
    (fun i _ => hf _)
  simp only [NewChannelPool, hv, hm, if_false, hfill, setBuf, Len, List.nil_append,
    length_produced, true_and, and_true]
  omega

/-- The test `TestPool_UsedCapacity`: `NewChannelPool(5, 30, f)` gives
`Len() == 5` after five factory calls. -/
theorem NewChannelPool_prefill_witness :
    (NewChannelPool (fun _ _ => none) chanMax64 5 30 (some (fun k => (some k, none))) 0 []).1 = .ok ∧
      (NewChannelPool (fun _ _ => none) chanMax64 5 30 (some (fun k => (some k, none))) 0 []).2.calls = 5 ∧
      (Len (NewChannelPool (fun _ _ => none) chanMax64 5 30 (some (fun k => (some k, none))) 0 []).2 : Int)
        = 5 :=
  have h := NewChannelPool_prefill (fun _ _ => none) chanMax64 (fun k => (some k, none)) 5 30 0 []
    (by decide) (by decide) (by decide) (by decide) (fun _ => rfl)
  ⟨h.1, h.2.1, h.2.2.1⟩

/-- Claim C4, evaluated at the failing input: with a factory whose first call
returns `(nil, nil)` and whose second call is the first to fail,
`NewChannelPool(2, 2, f)` does not return the error: the `c.Close()` of its
failure path calls `Close` on the queued nil entry and panics. -/
theorem NewChannelPool_fill_failure_nil_entry :
    ((fun k => if k = 0 then (none, none) else (none, some (.msg "boom")) : Factory) 0).2 = none ∧
    ((fun k => if k = 0 then (none, none) else (none, some (.msg "boom")) : Factory) 1).2 =
      some (.msg "boom") ∧
    (NewChannelPool (fun _ _ => none) chanMax64 2 2
      (some (fun k => if k = 0 then (none, none) else (none, some (.msg "boom")))) 0 []).1 =
        .panicked ∧
    ¬ ∃ e, (NewChannelPool (fun _ _ => none) chanMax64 2 2
      (some (fun k => if k = 0 then (none, none) else (none, some (.msg "boom")))) 0 []).1 =
        .err e := by
  refine ⟨rfl, rfl, by decide, ?_⟩
  rintro ⟨e, he⟩
  have hp : (NewChannelPool (fun _ _ => none) chanMax64 2 2
      (some (fun k => if k = 0 then (none, none) else (none, some (.msg "boom")))) 0 []).1 =
        .panicked := by decide
  rw [hp] at he
  exact NewResult.noConfusion he

/-- When no nil value has been queued, a pre-fill failure is all-or-nothing:
for a valid `(initialCap, maxCap)` that `make` accepts and a factory whose first
calls return the non-nil resources `rs` without error and whose next call, within
the first `initialCap`, fails with `e`, `NewChannelPool` returns no pool and an
error whose message is "factory is not able to fill the pool: " followed by the
message of `e`; the factory has been invoked `rs.length + 1` times and exactly
the resources `rs` have been closed, each once, in creation order. -/
theorem NewChannelPool_fill_failure (closeOf : CloseFn) (chanMax : Nat) (f : Factory)
    (initialCap maxCap : Int) (calls : Nat) (closed : List Res) (rs : List Res) (e : Error)
    (h0 : 0 ≤ initialCap) (h1 : initialCap ≤ maxCap) (h2 : 0 < maxCap)
    (hmax : maxCap ≤ chanMax) (hk : (rs.length : Int) < initialCap)
    (hrs : ∀ i r, rs[i]? = some r → f (calls + i) = (some r, none))
    (he : (f (calls + rs.length)).2 = some e) :
    (NewChannelPool closeOf chanMax initialCap maxCap (some f) calls closed).1 =
        .err (.msg ("factory is not able to fill the pool: " ++ e.message)) ∧
      (NewChannelPool closeOf chanMax initialCap maxCap (some f) calls closed).2.calls =
        calls + rs.length + 1 ∧
      (NewChannelPool closeOf chanMax initialCap maxCap (some f) calls closed).2.closed = closed ++ rs ∧
      (NewChannelPool closeOf chanMax initialCap maxCap (some f) calls closed).2.pool.readers = none := by
  have hv : ¬ (initialCap < 0 ∨ maxCap ≤ 0 ∨ initialCap > maxCap) := by omega
  have hfill := fill_fail closeOf f e rs initialCap.toNat
    { pool := { readers := some { cap := maxCap.toNat, buf := [] }, factory := some f },
      calls := calls, closed := closed }
    { cap := maxCap.toNat, buf := [] } [] rfl rfl (by simp only [List.length_nil]; omega)
    (by omega) hrs he
  have hm : ¬ ((chanMax : Int) < maxCap) := by omega
  simp only [NewChannelPool, hv, hm, if_false, hfill, List.nil_append, and_self]

/-- A run of the all-or-nothing failure: `NewChannelPool(2, 2, f)` where `f` first creates
resource `7` and then fails with "boom" closes `7` and returns the wrapped
error after two factory calls. -/
theorem NewChannelPool_fill_failure_witness :
    (NewChannelPool (fun _ _ => none) chanMax64 2 2
      (some (fun k => if k = 0 then (some 7, none) else (none, some (.msg "boom")))) 0 []).1 =
        .err (.msg ("factory is not able to fill the pool: " ++ (Error.msg "boom").message)) ∧
    (NewChannelPool (fun _ _ => none) chanMax64 2 2
      (some (fun k => if k = 0 then (some 7, none) else (none, some (.msg "boom")))) 0 []).2.calls =
        0 + [7].length + 1 ∧
    (NewChannelPool (fun _ _ => none) chanMax64 2 2
      (some (fun k => if k = 0 then (some 7, none) else (none, some (.msg "boom")))) 0 []).2.closed =
        [] ++ [7] :=
  have h := NewChannelPool_fill_failure (fun _ _ => none) chanMax64
    (fun k => if k = 0 then (some 7, none) else (none, some (.msg "boom"))) 2 2 0 [] [7]
    (.msg "boom") (by decide) (by decide) (by decide) (by decide) (by decide)
    (by
      intro i r hi
      cases i with
      | zero => simp at hi; subst hi; rfl
      | succ j => simp at hi)
    rfl
  ⟨h.1, h.2.1, h.2.2.1⟩

/-! ## Invariants of the call sequences -/

/-- An open pool's channel has capacity `cap` and holds at most `cap` values. -/
def Inv (cap : Nat) (s : State) : Prop :=
  ∀ ch, s.pool.readers = some ch → ch.cap = cap ∧ ch.buf.length ≤ cap

theorem Len_le_of_Inv {cap : Nat} {s : State} (h : Inv cap s) : Len s ≤ cap := by
  unfold Len
  split
  · exact Nat.zero_le _
  · next ch hch => exact (h ch hch).2

theorem closeRes_pool (closeOf : CloseFn) (r : Res) (s : State) :
    (closeRes closeOf r s).2.pool = s.pool := rfl

theorem Inv_of_pool_eq {cap : Nat} {s t : State} (h : t.pool = s.pool) (hs : Inv cap s) :
    Inv cap t := by
  intro ch hch
  rw [h] at hch
  exact hs ch hch

theorem Inv_of_closed {cap : Nat} {s : State} (h : s.pool.readers = none) : Inv cap s := by
  intro ch hch
  rw [h] at hch
  cases hch

theorem drain_pool (closeOf : CloseFn) (l : List Conn) :
    ∀ s : State, (drain closeOf l s).2.pool = s.pool := by
  induction l with
  | nil => intro s; rfl
  | cons c l ih =>
    intro s
    cases c with
    | none => rfl
    | some r => simp only [drain]; rw [ih]; rfl

theorem Close_readers (closeOf : CloseFn) (s : State) :
    (Close closeOf s).2.pool.readers = none := by
  unfold Close
  split
  · rfl
  · simp only [drain_pool]

theorem Inv_Get {cap : Nat} {s : State} (h : Inv cap s) : Inv cap (Get s).2 := by
  unfold Get
  split
  · exact h
  · next ch hch =>
    have hc := h ch hch
    split
    · next conn rest hb =>
      have : Inv cap (setBuf s ch rest) := by
        intro ch2 h2
        simp only [setBuf, Option.some.injEq] at h2
        subst h2
        simp only [hb, List.length_cons] at hc
        exact ⟨hc.1, by simp only; omega⟩
      split <;> exact this
    · split
      · exact h
      · split <;> exact Inv_of_pool_eq rfl h

theorem Inv_put {cap : Nat} (closeOf : CloseFn) (conn : Conn) {s : State} (h : Inv cap s) :
    Inv cap (put closeOf conn s).2 := by
  unfold put
  split
  · exact h
  · split
    · exact Inv_of_pool_eq (closeRes_pool _ _ _) h
    · next ch hch =>
      have hc := h ch hch
      split
      · next hlt =>
        intro ch2 h2
        simp only [setBuf, Option.some.injEq] at h2
        subst h2
        simp only [List.length_append, List.length_singleton]
        exact ⟨hc.1, by omega⟩
      · exact Inv_of_pool_eq (closeRes_pool _ _ _) h

theorem Inv_leaseClose {cap : Nat} (closeOf : CloseFn) (l : PoolReader) {s : State}
    (h : Inv cap s) : Inv cap (l.Close closeOf s).2 := by
  unfold PoolReader.Close
  split
  · split
    · exact Inv_of_pool_eq (closeRes_pool _ _ _) h
    · exact h
  · exact Inv_put closeOf _ h

theorem Inv_step {cap : Nat} (closeOf : CloseFn) (y : Sys) (o : Op) (h : Inv cap y.st) :
    Inv cap (step closeOf y o).2.st := by
  cases o with
  | get =>
    have hg := Inv_Get h
    simp only [step]
    split
    · next l s heq => rw [heq] at hg; exact hg
    · next r s _ heq => rw [heq] at hg; exact hg
  | leaseClose i =>
    simp only [step]
    split
    · exact h
    · exact Inv_leaseClose closeOf _ h
  | markUnusable i =>
    simp only [step]
    split <;> exact h
  | poolClose => exact Inv_of_closed (Close_readers closeOf y.st)
  | len => exact h

theorem Inv_run {cap : Nat} (closeOf : CloseFn) (ops : List Op) :
    ∀ y : Sys, Inv cap y.st → Inv cap (run closeOf y ops).st := by
  induction ops with
  | nil => intro y h; exact h
  | cons o os ih => intro y h; exact ih _ (Inv_step closeOf y o h)

theorem Inv_fill {cap : Nat} (closeOf : CloseFn) (factory : Option Factory) (n : Nat) :
    ∀ s : State, Inv cap s → Inv cap (fill closeOf factory n s).2 := by
  induction n with
  | zero => intro s h; exact h
  | succ n ih =>
    intro s h
    simp only [fill]
    split
    · exact h
    · split
      · split
        · next s2 heq =>
          have := Close_readers closeOf { s with calls := s.calls + 1 }
          rw [heq] at this
          exact Inv_of_closed this
        · next s2 heq =>
          have := Close_readers closeOf { s with calls := s.calls + 1 }
          rw [heq] at this
          exact Inv_of_closed this
      · split
        · exact Inv_of_pool_eq rfl h
        · next ch hch =>
          have hc := h ch hch
          split
          · apply ih
            intro ch2 h2
            simp only [setBuf, Option.some.injEq] at h2
            subst h2
            simp only [List.length_append, List.length_singleton]
            exact ⟨hc.1, by omega⟩
          · exact Inv_of_pool_eq rfl h

theorem Get_closed {s : State} (h : s.pool.readers = none) : Get s = (.err .ErrClosed, s) := by
  simp only [Get, h]

theorem Len_closed {s : State} (h : s.pool.readers = none) : Len s = 0 := by
  simp only [Len, h]

theorem drain_calls (closeOf : CloseFn) (l : List Conn) :
    ∀ s : State, (drain closeOf l s).2.calls = s.calls := by
  induction l with
  | nil => intro s; rfl
  | cons c l ih =>
    intro s
    cases c with
    | none => rfl
    | some r => simp only [drain]; rw [ih]; rfl

theorem Close_calls (closeOf : CloseFn) (s : State) : (Close closeOf s).2.calls = s.calls := by
  unfold Close
  split
  · rfl
  · simp only [drain_calls]

theorem leaseClose_closed (closeOf : CloseFn) (l : PoolReader) {s : State}
    (h : s.pool.readers = none) :
    (l.Close closeOf s).2.pool.readers = none ∧ (l.Close closeOf s).2.calls = s.calls := by
  unfold PoolReader.Close put
  split
  · split
    · exact ⟨h, rfl⟩
    · exact ⟨h, rfl⟩
  · split
    · exact ⟨h, rfl⟩
    · simp only [h]
      exact ⟨h, rfl⟩

/-- On a closed pool every call leaves the pool closed and the factory
untouched, a `Get` is answered `ErrClosed` and a `Len` is answered `0`. -/
theorem step_closed (closeOf : CloseFn) (y : Sys) (o : Op) (h : y.st.pool.readers = none) :
    (step closeOf y o).2.st.pool.readers = none ∧
      (step closeOf y o).2.st.calls = y.st.calls ∧
      (∀ r, (step closeOf y o).1 = .got r → r = .err .ErrClosed) ∧
      (∀ n, (step closeOf y o).1 = .length n → n = 0) := by
  cases o with
  | get =>
    simp only [step, Get_closed h]
    refine ⟨h, trivial, ?_, ?_⟩
    · intro r hr
      injection hr with hr
      exact hr.symm
    · intro n hn
      cases hn
  | leaseClose i =>
    simp only [step]
    split
    · refine ⟨h, rfl, ?_, ?_⟩
      · intro r hr; cases hr
      · intro n hn; cases hn
    · next l _ =>
      refine ⟨(leaseClose_closed closeOf l h).1, (leaseClose_closed closeOf l h).2, ?_, ?_⟩
      · intro r hr; cases hr
      · intro n hn; cases hn
  | markUnusable i =>
    simp only [step]
    split
    · refine ⟨h, rfl, ?_, ?_⟩
      · intro r hr; cases hr
      · intro n hn; cases hn
    · refine ⟨h, rfl, ?_, ?_⟩
      · intro r hr; cases hr
      · intro n hn; cases hn
  | poolClose =>
    refine ⟨Close_readers closeOf y.st, Close_calls closeOf y.st, ?_, ?_⟩
    · intro r hr; cases hr
    · intro n hn; cases hn
  | len =>
    refine ⟨h, rfl, ?_, ?_⟩
    · intro r hr; cases hr
    · intro n hn
      simp only [step, Len_closed h] at hn
      injection hn with hn
      exact hn.symm

theorem run_closed (closeOf : CloseFn) (ops : List Op) :
    ∀ y : Sys, y.st.pool.readers = none →
      (run closeOf y ops).st.pool.readers = none ∧
      (run closeOf y ops).st.calls = y.st.calls ∧
      (∀ r, Obs.got r ∈ observe closeOf y ops → r = .err .ErrClosed) ∧
      (∀ n, Obs.length n ∈ observe closeOf y ops → n = 0) := by
  induction ops with
  | nil =>
    intro y h
    refine ⟨h, rfl, ?_, ?_⟩
    · intro r hr; cases hr
    · intro n hn; cases hn
  | cons o os ih =>
    intro y h
    have hs := step_closed closeOf y o h
    have hr := ih (step closeOf y o).2 hs.1
    refine ⟨hr.1, hr.2.1.trans hs.2.1, ?_, ?_⟩
    · intro r hmem
      simp only [observe, List.mem_cons] at hmem
      rcases hmem with hmem | hmem
      · exact hs.2.2.1 r hmem.symm
      · exact hr.2.2.1 r hmem
    · intro n hmem
      simp only [observe, List.mem_cons] at hmem
      rcases hmem with hmem | hmem
      · exact hs.2.2.2 n hmem.symm
      · exact hr.2.2.2 n hmem

/-- Claim C1. Capacity invariant: for every pool returned by
`NewChannelPool(initialCap, maxCap, factory)` and every finite sequence of `Get`,
lease `Close`, `MarkUnusable`, pool `Close` and `Len` calls, `Len()` is at most
`maxCap` after the sequence (hence after each of its prefixes). -/
theorem Len_le_maxCap (closeOf : CloseFn) (chanMax : Nat) (initialCap maxCap : Int)
    (factory : Option Factory) (calls : Nat) (closed : List Res)
    (hok : (NewChannelPool closeOf chanMax initialCap maxCap factory calls closed).1 = .ok)
    (ops : List Op) :
    (Len (run closeOf
      { st := (NewChannelPool closeOf chanMax initialCap maxCap factory calls closed).2, leases := [] }
      ops).st : Int) ≤ maxCap := by
  by_cases hv : initialCap < 0 ∨ maxCap ≤ 0 ∨ initialCap > maxCap
  · simp only [NewChannelPool, hv, if_true] at hok
    cases hok
  · have hinit : Inv maxCap.toNat
        { pool := { readers := some { cap := maxCap.toNat, buf := [] }, factory := factory },
          calls := calls, closed := closed } := by
      intro ch hch
      simp only [Option.some.injEq] at hch
      subst hch
      exact ⟨rfl, Nat.zero_le _⟩
    have hnew : Inv maxCap.toNat
        (NewChannelPool closeOf chanMax initialCap maxCap factory calls closed).2 := by
      by_cases hm : (chanMax : Int) < maxCap
      · simp only [NewChannelPool, hv, hm, if_false, if_true]
        exact Inv_of_closed rfl
      · simp only [NewChannelPool, hv, hm, if_false]
        exact Inv_fill closeOf factory _ _ hinit
    have hrun := Len_le_of_Inv (Inv_run closeOf ops
      { st := (NewChannelPool closeOf chanMax initialCap maxCap factory calls closed).2, leases := [] }
      hnew)
    omega

/-- A run of C1 on a capacity-1 pool: two leases are taken and both closed,
and `Len()` is still at most 1. -/
theorem Len_le_maxCap_witness :
    (NewChannelPool (fun _ _ => none) chanMax64 0 1 (some (fun k => (some k, none))) 0 []).1 = .ok ∧
    (Len (run (fun _ _ => none)
      { st := (NewChannelPool (fun _ _ => none) chanMax64 0 1 (some (fun k => (some k, none))) 0 []).2,
        leases := [] }
      [.get, .get, .leaseClose 0, .leaseClose 1, .len]).st : Int) ≤ 1 :=
  ⟨by decide,
    Len_le_maxCap (fun _ _ => none) chanMax64 0 1 (some (fun k => (some k, none))) 0 []
      (by decide)
      [.get, .get, .leaseClose 0, .leaseClose 1, .len]⟩

/-- Claim C5. Post-shutdown rejection: after pool `Close()` (however it ended)
and any further sequence of `Get`, lease `Close`, `MarkUnusable`, pool `Close`
and `Len` calls, the pool is still closed; every `Get` of the sequence and the
next one are answered `ErrClosed`, every `Len` of the sequence and the next one
are answered `0`, and the factory has not been invoked since before the
`Close()`. -/
theorem closed_forever (closeOf : CloseFn) (y : Sys) (ops : List Op) :
    (run closeOf (step closeOf y .poolClose).2 ops).st.pool.readers = none ∧
      (∀ r, Obs.got r ∈ observe closeOf (step closeOf y .poolClose).2 ops → r = .err .ErrClosed) ∧
      (∀ n, Obs.length n ∈ observe closeOf (step closeOf y .poolClose).2 ops → n = 0) ∧
      Get (run closeOf (step closeOf y .poolClose).2 ops).st =
        (.err .ErrClosed, (run closeOf (step closeOf y .poolClose).2 ops).st) ∧
      Len (run closeOf (step closeOf y .poolClose).2 ops).st = 0 ∧
      (run closeOf (step closeOf y .poolClose).2 ops).st.calls = y.st.calls := by
  have hc : (step closeOf y .poolClose).2.st.pool.readers = none := Close_readers closeOf y.st
  have hr := run_closed closeOf ops (step closeOf y .poolClose).2 hc
  exact ⟨hr.1, hr.2.2.1, hr.2.2.2, Get_closed hr.1, Len_closed hr.1,
    hr.2.1.trans (Close_calls closeOf y.st)⟩

/-! ## Releasing a lease -/

/-- Claim C6. Return-on-close: on an open pool whose channel has capacity
`ch.cap` (the `maxCap` of its construction), closing a lease that wraps the
non-nil resource `r` and is not marked unusable: with `Len() < maxCap` returns
nil, appends `r` to the idle buffer so that `Len()` grows by exactly 1, and does
not close `r`; with `Len() == maxCap` leaves the buffer as it is, closes `r`
exactly once and returns the result of that close. -/
theorem leaseClose_returns (closeOf : CloseFn) (s : State) (ch : Chan) (l : PoolReader)
    (r : Res) (hopen : s.pool.readers = some ch) (hl : l.ReadSeekCloser = some r)
    (hu : l.unusable = false) :
    (Len s < ch.cap →
      (l.Close closeOf s).1 = none ∧
      Len (l.Close closeOf s).2 = Len s + 1 ∧
      (l.Close closeOf s).2.pool.readers = some { ch with buf := ch.buf ++ [some r] } ∧
      (l.Close closeOf s).2.closed = s.closed) ∧
    (Len s = ch.cap →
      (l.Close closeOf s).1 = closeOf r s.closed.length ∧
      Len (l.Close closeOf s).2 = ch.cap ∧
      (l.Close closeOf s).2.pool.readers = some ch ∧
      (l.Close closeOf s).2.closed = s.closed ++ [r]) := by
  have hlen : Len s = ch.buf.length := by simp only [Len, hopen]
  constructor
  · intro hlt
    rw [hlen] at hlt
    simp only [PoolReader.Close, hu, Bool.false_eq_true, if_false, hl, put, hopen, hlt, if_true,
      setBuf, Len, List.length_append, List.length_singleton, and_self]
  · intro heq
    rw [hlen] at heq
    have hnlt : ¬ ch.buf.length < ch.cap := by omega
    simp only [PoolReader.Close, hu, Bool.false_eq_true, if_false, hl, put, hopen, hnlt,
      closeRes, Len, heq, and_self]
    simp only [lt_self_iff_false, if_false, hopen, heq, and_self]

set_option maxRecDepth 100000 in
/-- The test `TestPool_Put`: 30 leases are taken from an empty capacity-30 pool;
after 29 of them are closed `Len()` is 29, closing the last one returns nil
and gives `Len() == 30`, and closing one more lease on a full pool closes its
resource instead. -/
theorem leaseClose_returns_witness :
    Len (run (fun _ _ => none)
      { st := (NewChannelPool (fun _ _ => none) chanMax64 0 30 (some (fun k => (some k, none))) 0 []).2,
        leases := [] }
      (List.replicate 30 Op.get ++ (List.range 29).map Op.leaseClose)).st = 29 ∧
    ((wrap (some 29)).Close (fun _ _ => none) (run (fun _ _ => none)
      { st := (NewChannelPool (fun _ _ => none) chanMax64 0 30 (some (fun k => (some k, none))) 0 []).2,
        leases := [] }
      (List.replicate 30 Op.get ++ (List.range 29).map Op.leaseClose)).st).1 = none ∧
    Len ((wrap (some 29)).Close (fun _ _ => none) (run (fun _ _ => none)
      { st := (NewChannelPool (fun _ _ => none) chanMax64 0 30 (some (fun k => (some k, none))) 0 []).2,
        leases := [] }
      (List.replicate 30 Op.get ++ (List.range 29).map Op.leaseClose)).st).2 = 30 ∧
    ((wrap (some 5)).Close (fun _ _ => none)
      { pool := { readers := some { cap := 2, buf := [some 3, some 4] }, factory := none },
        calls := 0, closed := [] }).2.closed = [] ++ [5] :=
  have h := leaseClose_returns (fun _ _ => none) (run (fun _ _ => none)
      { st := (NewChannelPool (fun _ _ => none) chanMax64 0 30 (some (fun k => (some k, none))) 0 []).2,
        leases := [] }
      (List.replicate 30 Op.get ++ (List.range 29).map Op.leaseClose)).st
    { cap := 30, buf := (List.range 29).map some } (wrap (some 29)) 29 (by rfl) rfl rfl
  have hfull := leaseClose_returns (fun _ _ => none)
    { pool := { readers := some { cap := 2, buf := [some 3, some 4] }, factory := none },
      calls := 0, closed := [] }
    { cap := 2, buf := [some 3, some 4] } (wrap (some 5)) 5 rfl rfl rfl
  have hlt : Len (run (fun _ _ => none)
      { st := (NewChannelPool (fun _ _ => none) chanMax64 0 30 (some (fun k => (some k, none))) 0 []).2,
        leases := [] }
      (List.replicate 30 Op.get ++ (List.range 29).map Op.leaseClose)).st < 30 := by decide
  ⟨by rfl, (h.1 hlt).1, (h.1 hlt).2.1, (hfull.2 rfl).2.2.2⟩

/-- A `Get` that returns a lease from a non-empty idle buffer has taken the
buffer's front entry, which is a non-nil resource. -/
theorem Get_ok_of_nonempty {s s1 : State} {ch : Chan} {l : PoolReader}
    (hopen : s.pool.readers = some ch) (hpos : 1 ≤ Len s) (hget : Get s = (.ok l, s1)) :
    ∃ r rest, ch.buf = some r :: rest ∧ l = wrap (some r) ∧ s1 = setBuf s ch rest := by
  have hlen : Len s = ch.buf.length := by simp only [Len, hopen]
  rcases hb : ch.buf with _ | ⟨conn, rest⟩
  · rw [hlen, hb] at hpos
    simp at hpos
  · cases conn with
    | none =>
      simp only [Get, hopen, hb] at hget
      injection hget with h1 _
      cases h1
    | some r =>
      simp only [Get, hopen, hb] at hget
      injection hget with h1 h2
      injection h1 with h1
      exact ⟨r, rest, rfl, h1.symm, h2.symm⟩

/-- Claim C7. Unusable short-circuit: on an open pool with `Len() == n >= 1`,
when `Get()` returns a lease, that lease wraps the non-nil resource `r` taken
from the front of the idle buffer and `Len()` is `n - 1`; after `MarkUnusable()`
the lease's `Close()` leaves the pool (idle buffer included) as it is, so
`Len()` stays `n - 1`, invokes the close of `r` exactly once and returns its
result; the factory is never invoked. -/
theorem unusable_short_circuit (closeOf : CloseFn) (s s1 : State) (ch : Chan) (n : Nat)
    (l : PoolReader) (hopen : s.pool.readers = some ch) (hn : Len s = n) (hpos : 1 ≤ n)
    (hget : Get s = (.ok l, s1)) :
    ∃ r rest, ch.buf = some r :: rest ∧ l.ReadSeekCloser = some r ∧
      Len s1 = n - 1 ∧ s1.closed = s.closed ∧ s1.calls = s.calls ∧
      (l.MarkUnusable.Close closeOf s1).1 = closeOf r s1.closed.length ∧
      (l.MarkUnusable.Close closeOf s1).2.pool = s1.pool ∧
      Len (l.MarkUnusable.Close closeOf s1).2 = n - 1 ∧
      (l.MarkUnusable.Close closeOf s1).2.closed = s1.closed ++ [r] ∧
      (l.MarkUnusable.Close closeOf s1).2.calls = s.calls := by
  obtain ⟨r, rest, hb, hl, hs1⟩ := Get_ok_of_nonempty hopen (hn ▸ hpos) hget
  have hlen : Len s = ch.buf.length := by simp only [Len, hopen]
  have hlen1 : Len s1 = n - 1 := by
    rw [hs1, ← hn, hlen, hb]
    simp only [Len, setBuf, List.length_cons, Nat.add_sub_cancel]
  refine ⟨r, rest, hb, by rw [hl]; rfl, hlen1, by rw [hs1]; rfl, by rw [hs1]; rfl, ?_⟩
  have hclose : l.MarkUnusable.Close closeOf s1 = closeRes closeOf r s1 := by
    rw [hl]
    simp only [PoolReader.Close, PoolReader.MarkUnusable, wrap, if_true]
  rw [hclose]
  refine ⟨rfl, rfl, ?_, rfl, by rw [hs1]; rfl⟩
  simpa only [Len, closeRes] using hlen1

/-- The last step of the test `TestPool_PutUnusableReader` on a pool pre-filled
with resources 0 and 1: `Get` hands out resource 0, and closing the lease after
`MarkUnusable` closes resource 0 and leaves `Len()` at 1. -/
theorem unusable_short_circuit_witness :
    ∃ r rest, (Chan.mk 30 [some 0, some 1]).buf = some r :: rest ∧
      (wrap (some 0)).ReadSeekCloser = some r ∧
      Len (Get (NewChannelPool (fun _ _ => none) chanMax64 2 30 (some (fun k => (some k, none))) 0 []).2).2 =
        2 - 1 ∧
      Len ((wrap (some 0)).MarkUnusable.Close (fun _ _ => none)
        (Get (NewChannelPool (fun _ _ => none) chanMax64 2 30 (some (fun k => (some k, none))) 0 []).2).2).2 =
        2 - 1 ∧
      ((wrap (some 0)).MarkUnusable.Close (fun _ _ => none)
        (Get (NewChannelPool (fun _ _ => none) chanMax64 2 30 (some (fun k => (some k, none))) 0 []).2).2).2.closed =
        (Get (NewChannelPool (fun _ _ => none) chanMax64 2 30 (some (fun k => (some k, none))) 0 []).2).2.closed
          ++ [r] :=
  have ⟨r, rest, h1, h2, h3, _, _, _, _, h8, h9, _⟩ :=
    unusable_short_circuit (fun _ _ => none)
      (NewChannelPool (fun _ _ => none) chanMax64 2 30 (some (fun k => (some k, none))) 0 []).2
      (Get (NewChannelPool (fun _ _ => none) chanMax64 2 30 (some (fun k => (some k, none))) 0 []).2).2
      (Chan.mk 30 [some 0, some 1]) 2 (wrap (some 0)) rfl rfl (by decide) rfl
  ⟨r, rest, h1, h2, h3, h8, h9⟩

/-- Claim C8, evaluated. With resources whose own `Close` returns nil, closing
a lease returns nil, not an error, both after the pool was closed (`Get`, pool
`Close`, lease `Close`) and when the idle buffer is full (capacity 1: two
`Get`s, then both leases closed; the second finds the buffer full). -/
theorem leaseClose_closed_or_full_returns_nil :
    observe (fun _ _ => none)
      { st := (NewChannelPool (fun _ _ => none) chanMax64 0 1 (some (fun k => (some k, none))) 0 []).2,
        leases := [] }
      [.get, .poolClose, .len, .leaseClose 0] =
      [.got (.ok (wrap (some 0))), .done .returned, .length 0, .closedLease none] ∧
    observe (fun _ _ => none)
      { st := (NewChannelPool (fun _ _ => none) chanMax64 0 1 (some (fun k => (some k, none))) 0 []).2,
        leases := [] }
      [.get, .get, .leaseClose 0, .len, .leaseClose 1, .len] =
      [.got (.ok (wrap (some 0))), .got (.ok (wrap (some 1))), .closedLease none, .length 1,
        .closedLease none, .length 1] ∧
    (run (fun _ _ => none)
      { st := (NewChannelPool (fun _ _ => none) chanMax64 0 1 (some (fun k => (some k, none))) 0 []).2,
        leases := [] }
      [.get, .get, .leaseClose 0, .len, .leaseClose 1, .len]).st.closed = [1] := by
  decide

/-! ## Acquiring -/

/-- Claim C9, evaluated at the failing input: `NewChannelPool(2, 2, f)` with `f`
returning `(nil, nil)` and then resource 5 gives an open pool whose idle buffer
holds the resource 5 behind a nil entry; `Get()` receives the nil entry and
returns `ErrClosed` instead of a lease. -/
theorem Get_nil_front_fails :
    (NewChannelPool (fun _ _ => none) chanMax64 2 2
      (some (fun k => if k = 0 then (none, none) else (some 5, none))) 0 []).1 = .ok ∧
    (NewChannelPool (fun _ _ => none) chanMax64 2 2
      (some (fun k => if k = 0 then (none, none) else (some 5, none))) 0 []).2.pool.readers =
        some { cap := 2, buf := [none, some 5] } ∧
    some 5 ∈ [none, some 5] ∧
    (Get (NewChannelPool (fun _ _ => none) chanMax64 2 2
      (some (fun k => if k = 0 then (none, none) else (some 5, none))) 0 []).2).1 =
        .err .ErrClosed ∧
    ¬ ∃ l, (Get (NewChannelPool (fun _ _ => none) chanMax64 2 2
      (some (fun k => if k = 0 then (none, none) else (some 5, none))) 0 []).2).1 = .ok l := by
  refine ⟨by decide, by decide, by decide, by decide, ?_⟩
  rintro ⟨l, hl⟩
  have he : (Get (NewChannelPool (fun _ _ => none) chanMax64 2 2
      (some (fun k => if k = 0 then (none, none) else (some 5, none))) 0 []).2).1 =
        .err .ErrClosed := by decide
  rw [he] at hl
  exact GetResult.noConfusion hl

/-- Away from nil entries `Get` takes before it creates: on an open pool whose
idle buffer's front entry is a non-nil resource `r`, `Get()` succeeds, returns a
lease wrapping `r`, removes that entry so that `Len()` drops by exactly 1, and
does not invoke the factory; on an open pool with an empty buffer and a factory
whose call reports no error, `Get()` invokes the factory exactly once, returns
a lease wrapping the call's result, and `Len()` stays 0. -/
theorem Get_takes_before_creates (s : State) (ch : Chan) (hopen : s.pool.readers = some ch) :
    (∀ r rest, ch.buf = some r :: rest →
      Get s = (.ok (wrap (some r)), setBuf s ch rest) ∧
      Len (Get s).2 + 1 = Len s ∧
      (Get s).2.pool.readers = some { ch with buf := rest } ∧
      (Get s).2.calls = s.calls) ∧
    (∀ f, ch.buf = [] → s.pool.factory = some f → (f s.calls).2 = none →
      Get s = (.ok (wrap (f s.calls).1), { s with calls := s.calls + 1 }) ∧
      Len s = 0 ∧ Len (Get s).2 = 0 ∧
      (Get s).2.calls = s.calls + 1) := by
  constructor
  · intro r rest hb
    simp only [Get, hopen, hb, Len, setBuf, List.length_cons, and_self]
  · intro f hb hf hnone
    rcases hfc : f s.calls with ⟨conn, e⟩
    rw [hfc] at hnone
    simp only at hnone
    subst hnone
    simp only [Get, hopen, hb, hf, hfc, Len, List.length_nil, and_self]

/-- Two runs of `Get`: from the idle buffer `[7, 8]` it hands out
resource 7 without a factory call; from an empty buffer it calls the factory
once and hands out the new resource. -/
theorem Get_takes_before_creates_witness :
    (Get { pool := { readers := some { cap := 3, buf := [some 7, some 8] },
                     factory := some (fun k => (some k, none)) },
           calls := 4, closed := [] } =
        (.ok (wrap (some 7)),
          setBuf { pool := { readers := some { cap := 3, buf := [some 7, some 8] },
                             factory := some (fun k => (some k, none)) },
                   calls := 4, closed := [] } { cap := 3, buf := [some 7, some 8] } [some 8])) ∧
    (Get { pool := { readers := some { cap := 3, buf := [] },
                     factory := some (fun k => (some k, none)) },
           calls := 4, closed := [] }).2.calls = 4 + 1 :=
  ⟨(((Get_takes_before_creates
        { pool := { readers := some { cap := 3, buf := [some 7, some 8] },
                    factory := some (fun k => (some k, none)) },
          calls := 4, closed := [] } { cap := 3, buf := [some 7, some 8] } rfl).1
      7 [some 8] rfl).1),
    (((Get_takes_before_creates
        { pool := { readers := some { cap := 3, buf := [] },
                    factory := some (fun k => (some k, none)) },
          calls := 4, closed := [] } { cap := 3, buf := [] } rfl).2
      (fun k => (some k, none)) rfl rfl rfl).2.2.2)⟩

/-- Claim C10, as stated, fails: `Get` passes the factory's error on unchanged,
so on the open, never closed pool of `NewChannelPool(0, 1, f)` with `f`
failing with `ErrClosed` itself, `Get()` returns `ErrClosed`; the pool is
left open with its empty buffer. -/
theorem Get_returns_factory_ErrClosed :
    (NewChannelPool (fun _ _ => none) chanMax64 0 1
      (some (fun _ => (none, some .ErrClosed))) 0 []).1 = .ok ∧
    (NewChannelPool (fun _ _ => none) chanMax64 0 1
      (some (fun _ => (none, some .ErrClosed))) 0 []).2.pool.readers =
        some { cap := 1, buf := [] } ∧
    (Get (NewChannelPool (fun _ _ => none) chanMax64 0 1
      (some (fun _ => (none, some .ErrClosed))) 0 []).2).1 = .err .ErrClosed ∧
    (Get (NewChannelPool (fun _ _ => none) chanMax64 0 1
      (some (fun _ => (none, some .ErrClosed))) 0 []).2).2.pool.readers =
        some { cap := 1, buf := [] } := by
  decide

/-- Claim C10, amended. Get's failures on an open pool: on a pool that has not
been closed and whose idle buffer does not start with a nil entry, `Get()`
returns an error only when the idle buffer is empty and the factory call
fails; it then returns the factory's error unchanged, having called the
factory once, and leaves the pool (open, idle buffer contents) and the close
log unchanged, so the pool remains usable. In particular it returns
`ErrClosed` only when that is the factory's own error. -/
theorem Get_failures_open (s : State) (ch : Chan) (hopen : s.pool.readers = some ch)
    (hfront : ∀ rest, ch.buf ≠ none :: rest) :
    (∀ e, (Get s).1 = .err e →
      ch.buf = [] ∧ (∃ f, s.pool.factory = some f ∧ (f s.calls).2 = some e) ∧
        (Get s).2.pool = s.pool ∧ (Get s).2.calls = s.calls + 1 ∧
        (Get s).2.closed = s.closed) ∧
    (∀ f e, ch.buf = [] → s.pool.factory = some f → (f s.calls).2 = some e →
      Get s = (.err e, { s with calls := s.calls + 1 })) ∧
    ((Get s).1 = .err .ErrClosed →
      ∃ f, s.pool.factory = some f ∧ (f s.calls).2 = some .ErrClosed) ∧
    (Get s).2.pool.readers ≠ none := by
  have hmain : ∀ e, (Get s).1 = .err e →
      ch.buf = [] ∧ (∃ f, s.pool.factory = some f ∧ (f s.calls).2 = some e) ∧
        (Get s).2.pool = s.pool ∧ (Get s).2.calls = s.calls + 1 ∧
        (Get s).2.closed = s.closed := by
    intro e he
    rcases hb : ch.buf with _ | ⟨conn, rest⟩
    · cases hf : s.pool.factory with
      | none =>
        simp only [Get, hopen, hb, hf] at he
        cases he
      | some f =>
        rcases hfc : f s.calls with ⟨conn, e2⟩
        cases e2 with
        | none =>
          simp only [Get, hopen, hb, hf, hfc] at he
          cases he
        | some e3 =>
          simp only [Get, hopen, hb, hf, hfc, GetResult.err.injEq] at he
          subst he
          refine ⟨rfl, ⟨f, rfl, by rw [hfc]⟩, ?_, ?_, ?_⟩
          · simp only [Get, hopen, hb, hf, hfc]
          · simp only [Get, hopen, hb, hf, hfc]
          · simp only [Get, hopen, hb, hf, hfc]
    · cases conn with
      | none => exact absurd hb (hfront rest)
      | some r =>
        simp only [Get, hopen, hb] at he
        cases he
  refine ⟨hmain, ?_, ?_, ?_⟩
  · intro f e hb hf he
    rcases hfc : f s.calls with ⟨conn, e2⟩
    rw [hfc] at he
    simp only at he
    subst he
    simp only [Get, hopen, hb, hf, hfc]
  · intro he
    exact (hmain .ErrClosed he).2.1
  · unfold Get
    simp only [hopen]
    split
    · split <;> simp [setBuf]
    · split
      · simp [hopen]
      · split <;> simp [hopen]

/-- Two runs of the amended C10: on an empty buffer the factory's error "boom"
comes back unchanged and the pool is left open; from the idle buffer `[5]`
`Get` does not fail. -/
theorem Get_failures_open_witness :
    Get { pool := { readers := some { cap := 2, buf := [] },
                    factory := some (fun _ => (none, some (.msg "boom"))) },
          calls := 2, closed := [] } =
      (.err (.msg "boom"),
        { pool := { readers := some { cap := 2, buf := [] },
                    factory := some (fun _ => (none, some (.msg "boom"))) },
          calls := 2 + 1, closed := [] }) ∧
    (Get { pool := { readers := some { cap := 2, buf := [] },
                     factory := some (fun _ => (none, some (.msg "boom"))) },
           calls := 2, closed := [] }).2.pool.readers ≠ none ∧
    (Get { pool := { readers := some { cap := 2, buf := [some 5] },
                     factory := some (fun _ => (none, some (.msg "boom"))) },
           calls := 2, closed := [] }).2.pool.readers ≠ none :=
  ⟨(Get_failures_open
      { pool := { readers := some { cap := 2, buf := [] },
                  factory := some (fun _ => (none, some (.msg "boom"))) },
        calls := 2, closed := [] } { cap := 2, buf := [] } rfl
      (fun rest h => by cases h)).2.1
      (fun _ => (none, some (.msg "boom"))) (.msg "boom") rfl rfl rfl,
    (Get_failures_open
      { pool := { readers := some { cap := 2, buf := [] },
                  factory := some (fun _ => (none, some (.msg "boom"))) },
        calls := 2, closed := [] } { cap := 2, buf := [] } rfl
      (fun rest h => by cases h)).2.2.2,
    (Get_failures_open
      { pool := { readers := some { cap := 2, buf := [some 5] },
                  factory := some (fun _ => (none, some (.msg "boom"))) },
        calls := 2, closed := [] } { cap := 2, buf := [some 5] } rfl
      (fun rest h => by cases h)).2.2.2⟩

/-! ## Shutdown -/

theorem Close_pool (closeOf : CloseFn) (s : State) :
    (Close closeOf s).2.pool = { readers := none, factory := none } := by
  unfold Close
  split
  · rfl
  · simp only [drain_pool]

/-- Pool `Close` on a pool object that is already closed returns at once and
changes nothing. -/
theorem Close_again (closeOf : CloseFn) (s : State) :
    Close closeOf (Close closeOf s).2 = (.returned, (Close closeOf s).2) := by
  have hp := Close_pool closeOf s
  generalize (Close closeOf s).2 = t at hp
  obtain ⟨pool, calls, closed⟩ := t
  simp only at hp
  subst hp
  rfl

/-- The closes made by the drain loop are closes of queued resources. -/
theorem drain_closed (closeOf : CloseFn) (l : List Conn) :
    ∀ s : State, ∃ extra, (drain closeOf l s).2.closed = s.closed ++ extra ∧
      ∀ x, x ∈ extra → some x ∈ l := by
  induction l with
  | nil => intro s; exact ⟨[], by simp [drain], by simp⟩
  | cons c l ih =>
    intro s
    cases c with
    | none => exact ⟨[], by simp [drain], by simp⟩
    | some r =>
      obtain ⟨extra, h1, h2⟩ := ih (closeRes closeOf r s).2
      refine ⟨r :: extra, ?_, ?_⟩
      · simp only [drain]
        rw [h1]
        simp only [closeRes, List.append_assoc, List.singleton_append]
      · intro x hx
        simp only [List.mem_cons] at hx ⊢
        rcases hx with hx | hx
        · left; rw [hx]
        · right; exact h2 x hx

/-- Claim C11, evaluated at the failing input: the pool built by
`NewChannelPool(3, 3, f)` with
`f` returning resource 3, then `(nil, nil)`, then resource 5 holds the idle
resources 3 and 5; its first `Close()` closes 3, panics on the nil entry and
never closes the idle resource 5. -/
theorem Close_stops_at_nil_entry :
    (NewChannelPool (fun _ _ => none) chanMax64 3 3
      (some (fun k => if k = 1 then (none, none) else (some (k + 3), none))) 0 []).1 = .ok ∧
    (NewChannelPool (fun _ _ => none) chanMax64 3 3
      (some (fun k => if k = 1 then (none, none) else (some (k + 3), none))) 0 []).2.pool.readers =
        some { cap := 3, buf := [some 3, none, some 5] } ∧
    (Close (fun _ _ => none) (NewChannelPool (fun _ _ => none) chanMax64 3 3
      (some (fun k => if k = 1 then (none, none) else (some (k + 3), none))) 0 []).2).1 =
        .panicked ∧
    (Close (fun _ _ => none) (NewChannelPool (fun _ _ => none) chanMax64 3 3
      (some (fun k => if k = 1 then (none, none) else (some (k + 3), none))) 0 []).2).2.closed =
        [3] ∧
    5 ∉ (Close (fun _ _ => none) (NewChannelPool (fun _ _ => none) chanMax64 3 3
      (some (fun k => if k = 1 then (none, none) else (some (k + 3), none))) 0 []).2).2.closed := by
  decide

/-- Away from nil entries shutdown is idempotent in effect: for every open pool
whose idle entries are the non-nil resources `rs`, the first pool `Close()`
returns after closing each of them exactly once (front first) and leaves the
pool closed with `Len() == 0`; after any first `Close()`, every later pool
`Close()` is a no-op (it returns, closes no resource, state unchanged), so
`Close(); Close()` ends in the same state with the same resource closes as
`Close()`. -/
theorem Close_idempotent (closeOf : CloseFn) (s : State) (ch : Chan) (rs : List Res)
    (hopen : s.pool.readers = some ch) (hb : ch.buf = rs.map some) :
    Close closeOf s =
        (.returned, { pool := { readers := none, factory := none }, calls := s.calls,
                      closed := s.closed ++ rs }) ∧
      Len (Close closeOf s).2 = 0 ∧
      Close closeOf (Close closeOf s).2 = (.returned, (Close closeOf s).2) ∧
      (Close closeOf (Close closeOf s).2).2.closed = s.closed ++ rs := by
  have h1 : Close closeOf s =
      (.returned, { pool := { readers := none, factory := none }, calls := s.calls,
                    closed := s.closed ++ rs }) := by
    simp only [Close, hopen, hb, drain_somes]
  refine ⟨h1, ?_, Close_again closeOf s, ?_⟩
  · rw [h1]; rfl
  · rw [Close_again, h1]

/-- A run of shutdown: closing the pool with idle resources 7 and 8
closes 7 then 8; a second `Close()` changes nothing. -/
theorem Close_idempotent_witness :
    Close (fun _ _ => none)
        { pool := { readers := some { cap := 3, buf := [some 7, some 8] }, factory := none },
          calls := 2, closed := [] } =
      (.returned, { pool := { readers := none, factory := none }, calls := 2,
                    closed := [] ++ [7, 8] }) ∧
    (Close (fun _ _ => none) (Close (fun _ _ => none)
        { pool := { readers := some { cap := 3, buf := [some 7, some 8] }, factory := none },
          calls := 2, closed := [] }).2).2.closed = [] ++ [7, 8] :=
  have h := Close_idempotent (fun _ _ => none)
    { pool := { readers := some { cap := 3, buf := [some 7, some 8] }, factory := none },
      calls := 2, closed := [] }
    { cap := 3, buf := [some 7, some 8] } [7, 8] rfl rfl
  ⟨h.1, h.2.2.2⟩

/-- Claim C12. Release into a closed pool: for a lease wrapping the non-nil
resource `r` that is checked out (not in the idle buffer) when pool `Close()`
runs, the pool's `Close` does not close `r`; the later lease `Close()`, whatever
its unusable flag, closes `r` exactly once, returns exactly that close's
result, and `Len()` is 0 before and after it. -/
theorem leaseClose_after_pool_Close (closeOf : CloseFn) (s : State) (l : PoolReader) (r : Res)
    (hl : l.ReadSeekCloser = some r)
    (hout : ∀ ch, s.pool.readers = some ch → some r ∉ ch.buf) :
    (∃ extra, (Close closeOf s).2.closed = s.closed ++ extra ∧ r ∉ extra) ∧
      Len (Close closeOf s).2 = 0 ∧
      (l.Close closeOf (Close closeOf s).2).1 = closeOf r (Close closeOf s).2.closed.length ∧
      (l.Close closeOf (Close closeOf s).2).2.closed = (Close closeOf s).2.closed ++ [r] ∧
      (l.Close closeOf (Close closeOf s).2).2.pool = (Close closeOf s).2.pool ∧
      Len (l.Close closeOf (Close closeOf s).2).2 = 0 := by
  have hc := Close_readers closeOf s
  have hlease : l.Close closeOf (Close closeOf s).2 = closeRes closeOf r (Close closeOf s).2 := by
    unfold PoolReader.Close put
    simp only [hl, hc]
    split <;> rfl
  refine ⟨?_, Len_closed hc, by rw [hlease]; rfl, by rw [hlease]; rfl, by rw [hlease]; rfl, ?_⟩
  · cases hr : s.pool.readers with
    | none => exact ⟨[], by simp [Close, hr], by simp⟩
    | some ch =>
      obtain ⟨extra, h1, h2⟩ := drain_closed closeOf ch.buf
        { s with pool := { readers := none, factory := none } }
      refine ⟨extra, by simpa only [Close, hr] using h1, ?_⟩
      intro hmem
      exact hout ch hr (h2 r hmem)
  · rw [hlease]
    exact Len_closed (s := (closeRes closeOf r (Close closeOf s).2).2) hc

/-- The end of the test `TestPool_Put`: on a capacity-30 pool a lease is taken,
the pool is closed, then the lease is closed: its resource 0 is closed by the
lease and `Len()` is 0. -/
theorem leaseClose_after_pool_Close_witness :
    Len (Close (fun _ _ => none)
      (Get (NewChannelPool (fun _ _ => none) chanMax64 0 30 (some (fun k => (some k, none))) 0 []).2).2).2
        = 0 ∧
    ((wrap (some 0)).Close (fun _ _ => none) (Close (fun _ _ => none)
      (Get (NewChannelPool (fun _ _ => none) chanMax64 0 30 (some (fun k => (some k, none))) 0 []).2).2).2
      ).2.closed =
      (Close (fun _ _ => none)
        (Get (NewChannelPool (fun _ _ => none) chanMax64 0 30 (some (fun k => (some k, none))) 0 []).2).2
        ).2.closed ++ [0] ∧
    Len ((wrap (some 0)).Close (fun _ _ => none) (Close (fun _ _ => none)
      (Get (NewChannelPool (fun _ _ => none) chanMax64 0 30 (some (fun k => (some k, none))) 0 []).2).2).2
      ).2 = 0 :=
  have h := leaseClose_after_pool_Close (fun _ _ => none)
    (Get (NewChannelPool (fun _ _ => none) chanMax64 0 30 (some (fun k => (some k, none))) 0 []).2).2
    (wrap (some 0)) 0 rfl (by
      intro ch hch
      have : ch = { cap := 30, buf := [] } := by
        have h2 : some ch = some { cap := 30, buf := [] } := hch.symm.trans (by decide)
        exact Option.some.inj h2
      rw [this]
      simp)
  ⟨h.2.1, h.2.2.2.1, h.2.2.2.2.2⟩

/-! ## Nil resources and terminal actions -/

/-- Claim C13. Absent-resource handling: in every pool state (open or closed),
`put` of a nil resource returns the error "reader is nil. rejecting" and leaves
the state (idle buffer included) unchanged; closing a lease whose wrapped
resource is nil returns that error when the lease is not marked unusable and
returns nil when it is, the state again unchanged. -/
theorem nil_resource_handling (closeOf : CloseFn) (s : State) :
    put closeOf none s = (some (.msg "reader is nil. rejecting"), s) ∧
      PoolReader.Close closeOf { ReadSeekCloser := none, unusable := false } s =
        (some (.msg "reader is nil. rejecting"), s) ∧
      PoolReader.Close closeOf { ReadSeekCloser := none, unusable := true } s = (none, s) ∧
      PoolReader.Close closeOf (wrap none) s = (some (.msg "reader is nil. rejecting"), s) ∧
      PoolReader.Close closeOf (wrap none).MarkUnusable s = (none, s) :=
  ⟨rfl, rfl, rfl, rfl, rfl⟩

/-- Claim C14. Exactly one terminal action per release: in every pool state,
for every unusable-flag value and every lease wrapping the non-nil resource
`r`, one call of the lease's `Close()` either appends `r` to the idle buffer
and closes nothing, or leaves the pool as it is and invokes the close of `r`
exactly once; the first happens exactly when the lease is not marked unusable
and the pool is open with room. -/
theorem leaseClose_one_terminal_action (closeOf : CloseFn) (s : State) (l : PoolReader)
    (r : Res) (hl : l.ReadSeekCloser = some r) :
    (((∃ ch, s.pool.readers = some ch ∧
          (l.Close closeOf s).2.pool.readers = some { ch with buf := ch.buf ++ [some r] }) ∧
        (l.Close closeOf s).2.closed = s.closed) ∨
      ((l.Close closeOf s).2.pool = s.pool ∧
        (l.Close closeOf s).2.closed = s.closed ++ [r])) ∧
    ((l.Close closeOf s).2.closed = s.closed ↔
      (l.unusable = false ∧ ∃ ch, s.pool.readers = some ch ∧ ch.buf.length < ch.cap)) := by
  have hne : s.closed ++ [r] ≠ s.closed := by
    intro h
    have := congrArg List.length h
    simp at this
  cases hu : l.unusable with
  | true =>
    have hc : l.Close closeOf s = closeRes closeOf r s := by
      simp only [PoolReader.Close, hu, if_true, hl]
    rw [hc]
    refine ⟨Or.inr ⟨rfl, rfl⟩, ?_⟩
    constructor
    · intro h; exact absurd h hne
    · intro h; cases h.1
  | false =>
    cases hr : s.pool.readers with
    | none =>
      have hc : l.Close closeOf s = closeRes closeOf r s := by
        simp only [PoolReader.Close, hu, Bool.false_eq_true, if_false, hl, put, hr]
      rw [hc]
      refine ⟨Or.inr ⟨rfl, rfl⟩, ?_⟩
      constructor
      · intro h; exact absurd h hne
      · rintro ⟨_, ch, hch, _⟩; cases hch
    | some ch =>
      by_cases hroom : ch.buf.length < ch.cap
      · have hc : l.Close closeOf s = (none, setBuf s ch (ch.buf ++ [some r])) := by
          simp only [PoolReader.Close, hu, Bool.false_eq_true, if_false, hl, put, hr, hroom,
            if_true]
        rw [hc]
        refine ⟨Or.inl ⟨⟨ch, rfl, rfl⟩, rfl⟩, ?_⟩
        constructor
        · intro _; exact ⟨rfl, ch, rfl, hroom⟩
        · intro _; rfl
      · have hc : l.Close closeOf s = closeRes closeOf r s := by
          simp only [PoolReader.Close, hu, Bool.false_eq_true, if_false, hl, put, hr, hroom]
        rw [hc]
        refine ⟨Or.inr ⟨rfl, rfl⟩, ?_⟩
        constructor
        · intro h; exact absurd h hne
        · rintro ⟨_, ch2, hch, hlt⟩
          injection hch with hch
          subst hch
          exact absurd hlt hroom

/-- Three releases of resource 9: into an open pool with room it is queued and
not closed; into a full pool and into a closed pool it is closed once. -/
theorem leaseClose_one_terminal_action_witness :
    (((wrap (some 9)).Close (fun _ _ => none)
        { pool := { readers := some { cap := 2, buf := [some 1] }, factory := none },
          calls := 0, closed := [] }).2.closed = [] ↔
      ((wrap (some 9)).unusable = false ∧
        ∃ ch, (some { cap := 2, buf := [some 1] } : Option Chan) = some ch ∧
          ch.buf.length < ch.cap)) ∧
    (((wrap (some 9)).Close (fun _ _ => none)
        { pool := { readers := some { cap := 1, buf := [some 1] }, factory := none },
          calls := 0, closed := [] }).2.closed = [] ↔
      ((wrap (some 9)).unusable = false ∧
        ∃ ch, (some { cap := 1, buf := [some 1] } : Option Chan) = some ch ∧
          ch.buf.length < ch.cap)) ∧
    (((wrap (some 9)).Close (fun _ _ => none)
        { pool := { readers := none, factory := none },
          calls := 0, closed := [] }).2.closed = [] ↔
      ((wrap (some 9)).unusable = false ∧
        ∃ ch, (none : Option Chan) = some ch ∧ ch.buf.length < ch.cap)) :=
  ⟨(leaseClose_one_terminal_action (fun _ _ => none)
      { pool := { readers := some { cap := 2, buf := [some 1] }, factory := none },
        calls := 0, closed := [] } (wrap (some 9)) 9 rfl).2,
    (leaseClose_one_terminal_action (fun _ _ => none)
      { pool := { readers := some { cap := 1, buf := [some 1] }, factory := none },
        calls := 0, closed := [] } (wrap (some 9)) 9 rfl).2,
    (leaseClose_one_terminal_action (fun _ _ => none)
      { pool := { readers := none, factory := none },
        calls := 0, closed := [] } (wrap (some 9)) 9 rfl).2⟩

/-- Claim C16, evaluated. A pool built with a non-nil factory whose call
returns `(nil, nil)` holds a nil idle entry: `NewChannelPool(1, 1, f)` succeeds,
`Len()` is 1, and pool `Close()` invokes `Close` on the nil entry and panics.
The same happens inside `NewChannelPool(3, 3, g)` when `g` returns `(nil, nil)`
and then fails: the factory failure ends in a panic, not in a returned
error. -/
theorem Close_panics_on_nil_entry :
    (NewChannelPool (fun _ _ => none) chanMax64 1 1 (some (fun _ => (none, none))) 0 []).1 = .ok ∧
    observe (fun _ _ => none)
      { st := (NewChannelPool (fun _ _ => none) chanMax64 1 1 (some (fun _ => (none, none))) 0 []).2,
        leases := [] }
      [.len, .poolClose] = [.length 1, .done .panicked] ∧
    (NewChannelPool (fun _ _ => none) chanMax64 3 3
      (some (fun k => if k = 0 then (none, none) else (none, some (.msg "no more")))) 0 []).1 =
        .panicked := by
  decide

/-! ## Order of the idle buffer -/

/-- What `Get` answers for a value received from the channel. -/
def received (conn : Conn) : GetResult :=
  match conn with
  | none => .err .ErrClosed
  | some r => .ok (wrap (some r))

/-- The results of `n` successive `Get` calls, in call order, and the state
they leave. -/
def gets : Nat → State → List GetResult × State
  | 0, s => ([], s)
  | n + 1, s => ((Get s).1 :: (gets n (Get s).2).1, (gets n (Get s).2).2)

theorem setBuf_self {s : State} {ch : Chan} (h : s.pool.readers = some ch) :
    setBuf s ch ch.buf = s := by
  obtain ⟨⟨rd, fa⟩, c, cl⟩ := s
  simp only at h
  subst h
  rfl

theorem Get_cons {s : State} {ch : Chan} {conn : Conn} {rest : List Conn}
    (h : s.pool.readers = some ch) (hb : ch.buf = conn :: rest) :
    Get s = (received conn, setBuf s ch rest) := by
  cases conn with
  | none => simp only [Get, h, hb, received]
  | some r => simp only [Get, h, hb, received]

/-- Successive `Get` calls on a buffer holding at least `n` values take its
first `n` values, front first, without calling the factory. -/
theorem gets_take (n : Nat) :
    ∀ (s : State) (ch : Chan), s.pool.readers = some ch → n ≤ ch.buf.length →
      gets n s = ((ch.buf.take n).map received, setBuf s ch (ch.buf.drop n)) := by
  induction n with
  | zero =>
    intro s ch h _
    simp only [gets, List.take_zero, List.map_nil, List.drop_zero, setBuf_self h]
  | succ n ih =>
    intro s ch h hn
    rcases hb : ch.buf with _ | ⟨conn, rest⟩
    · rw [hb] at hn
      simp at hn
    · rw [hb] at hn
      simp only [List.length_cons, Nat.add_le_add_iff_right] at hn
      have hg := Get_cons h hb
      have hrec := ih (setBuf s ch rest) { ch with buf := rest } rfl hn
      simp only [gets, hg, hrec, List.take_succ_cons, List.map_cons, List.drop_succ_cons]
      rfl

/-- Claim C18. Lease Close is not guarded against repetition: on an open pool
with at least two free slots, for a lease that wraps the non-nil resource `r`
and is not marked unusable, calling the lease's `Close()` twice returns nil both
times, closes nothing and raises `Len()` by 2: `r` is appended to the idle
buffer twice, so that after the values queued before it have been taken the
next two `Get`s both hand out a lease wrapping `r`. -/
theorem leaseClose_twice (closeOf : CloseFn) (s : State) (ch : Chan) (l : PoolReader) (r : Res)
    (hopen : s.pool.readers = some ch) (hl : l.ReadSeekCloser = some r)
    (hu : l.unusable = false) (hroom : ch.buf.length + 2 ≤ ch.cap) :
    (l.Close closeOf s).1 = none ∧
      (l.Close closeOf (l.Close closeOf s).2).1 = none ∧
      Len (l.Close closeOf (l.Close closeOf s).2).2 = Len s + 2 ∧
      (l.Close closeOf (l.Close closeOf s).2).2.pool.readers =
        some { ch with buf := ch.buf ++ [some r, some r] } ∧
      (l.Close closeOf (l.Close closeOf s).2).2.closed = s.closed ∧
      (gets (ch.buf.length + 2) (l.Close closeOf (l.Close closeOf s).2).2).1 =
        ch.buf.map received ++ [.ok (wrap (some r)), .ok (wrap (some r))] := by
  have h1 : l.Close closeOf s = (none, setBuf s ch (ch.buf ++ [some r])) := by
    have hlt : ch.buf.length < ch.cap := by omega
    simp only [PoolReader.Close, hu, Bool.false_eq_true, if_false, hl, put, hopen, hlt, if_true]
  have h2 : l.Close closeOf (setBuf s ch (ch.buf ++ [some r])) =
      (none, setBuf s ch (ch.buf ++ [some r, some r])) := by
    have hlt : (ch.buf ++ [some r]).length < ch.cap := by
      simp only [List.length_append, List.length_singleton]; omega
    simp only [PoolReader.Close, hu, Bool.false_eq_true, if_false, hl, put, setBuf, hlt, if_true,
      List.append_assoc, List.singleton_append]
  have hlen : Len s = ch.buf.length := by simp only [Len, hopen]
  rw [h1]
  simp only [h2]
  refine ⟨trivial, trivial, ?_, rfl, rfl, ?_⟩
  · rw [hlen]
    simp only [Len, setBuf, List.length_append, List.length_cons, List.length_nil]
  · rw [gets_take (ch.buf.length + 2) (setBuf s ch (ch.buf ++ [some r, some r]))
      { ch with buf := ch.buf ++ [some r, some r] } rfl (by simp)]
    have : ch.buf.length + 2 = (ch.buf ++ [some r, some r]).length := by simp
    simp only [this, List.take_length, List.map_append, List.map_cons, List.map_nil, received]

/-- A run of C18: a lease on resource 4 closed twice into the idle buffer `[1]`
of capacity 3 gives `Len() == 3`, and the next three `Get`s hand out 1, 4, 4. -/
theorem leaseClose_twice_witness :
    Len ((wrap (some 4)).Close (fun _ _ => none) ((wrap (some 4)).Close (fun _ _ => none)
      { pool := { readers := some { cap := 3, buf := [some 1] }, factory := none },
        calls := 0, closed := [] }).2).2 = 1 + 2 ∧
    (gets (1 + 2) ((wrap (some 4)).Close (fun _ _ => none)
      ((wrap (some 4)).Close (fun _ _ => none)
        { pool := { readers := some { cap := 3, buf := [some 1] }, factory := none },
          calls := 0, closed := [] }).2).2).1 =
      [.ok (wrap (some 1)), .ok (wrap (some 4)), .ok (wrap (some 4))] :=
  have h := leaseClose_twice (fun _ _ => none)
    { pool := { readers := some { cap := 3, buf := [some 1] }, factory := none },
      calls := 0, closed := [] }
    { cap := 3, buf := [some 1] } (wrap (some 4)) 4 rfl rfl rfl (by decide)
  ⟨h.2.2.1, h.2.2.2.2.2⟩

/-- Claim C19. The idle buffer is first-in-first-out: on an open pool, `n`
successive `Get()` calls that find the buffer non-empty take its first `n`
entries front first (a resource is handed out in a lease, a nil entry is
answered `ErrClosed`) and leave the rest, never calling the factory; a
successful release appends at the back, so the released resource is handed out
only after every entry that was idle before it; and after a pre-fill (of a
pool whose capacity `make` accepts) whose factory calls all report no error the
entries come out in call order. -/
theorem Get_fifo (closeOf : CloseFn) (s : State) (ch : Chan)
    (hopen : s.pool.readers = some ch) :
    (∀ n, n ≤ ch.buf.length →
      (gets n s).1 = (ch.buf.take n).map received ∧
      (gets n s).2 = setBuf s ch (ch.buf.drop n)) ∧
    (∀ (l : PoolReader) r, l.ReadSeekCloser = some r → l.unusable = false →
      ch.buf.length < ch.cap →
      (l.Close closeOf s).2.pool.readers = some { ch with buf := ch.buf ++ [some r] } ∧
      (gets (ch.buf.length + 1) (l.Close closeOf s).2).1 =
        ch.buf.map received ++ [.ok (wrap (some r))]) ∧
    (∀ (chanMax : Nat) (f : Factory) (initialCap maxCap : Int) (calls : Nat) (closed : List Res),
      0 ≤ initialCap → initialCap ≤ maxCap → 0 < maxCap → maxCap ≤ chanMax →
      (∀ k, (f k).2 = none) →
      (gets initialCap.toNat
        (NewChannelPool closeOf chanMax initialCap maxCap (some f) calls closed).2).1 =
        (produced f calls initialCap.toNat).map received) := by
  refine ⟨?_, ?_, ?_⟩
  · intro n hn
    rw [gets_take n s ch hopen hn]
    exact ⟨rfl, rfl⟩
  · intro l r hl hu hroom
    have h1 : l.Close closeOf s = (none, setBuf s ch (ch.buf ++ [some r])) := by
      simp only [PoolReader.Close, hu, Bool.false_eq_true, if_false, hl, put, hopen, hroom,
        if_true]
    rw [h1]
    refine ⟨rfl, ?_⟩
    rw [gets_take (ch.buf.length + 1) (setBuf s ch (ch.buf ++ [some r]))
      { ch with buf := ch.buf ++ [some r] } rfl (by simp)]
    have : ch.buf.length + 1 = (ch.buf ++ [some r]).length := by simp
    simp only [this, List.take_length, List.map_append, List.map_cons, List.map_nil, received]
  · intro chanMax f initialCap maxCap calls closed h0 h1 h2 hmax hf
    have hv : ¬ (initialCap < 0 ∨ maxCap ≤ 0 ∨ initialCap > maxCap) := by omega
    have hm : ¬ ((chanMax : Int) < maxCap) := by omega
    have hfill := fill_ok closeOf f initialCap.toNat
      { pool := { readers := some { cap := maxCap.toNat, buf := [] }, factory := some f },
        calls := calls, closed := closed }
      { cap := maxCap.toNat, buf := [] } rfl (by simp only [List.length_nil]; omega)
      (fun i _ => hf _)
    simp only [NewChannelPool, hv, hm, if_false, hfill, List.nil_append]
    rw [gets_take initialCap.toNat _ { cap := maxCap.toNat, buf := produced f calls initialCap.toNat }
      rfl (by simp [length_produced])]
    simp only [List.take_of_length_le (Nat.le_of_eq (length_produced f calls initialCap.toNat))]

/-- A run of C19: the pool is pre-filled with resources 0, 1, 2; the lease on 0
is taken and released again; the next three `Get`s hand out 1, 2, 0. -/
theorem Get_fifo_witness :
    (gets 3 ((wrap (some 0)).Close (fun _ _ => none)
      (Get (NewChannelPool (fun _ _ => none) chanMax64 3 3 (some (fun k => (some k, none))) 0 []).2).2).2).1 =
      [.ok (wrap (some 1)), .ok (wrap (some 2)), .ok (wrap (some 0))] ∧
    (gets 3 (NewChannelPool (fun _ _ => none) chanMax64 3 3 (some (fun k => (some k, none))) 0 []).2).1 =
      [.ok (wrap (some 0)), .ok (wrap (some 1)), .ok (wrap (some 2))] :=
  have h := Get_fifo (fun _ _ => none)
    (Get (NewChannelPool (fun _ _ => none) chanMax64 3 3 (some (fun k => (some k, none))) 0 []).2).2
    { cap := 3, buf := [some 1, some 2] } rfl
  have h0 := Get_fifo (fun _ _ => none)
    (NewChannelPool (fun _ _ => none) chanMax64 3 3 (some (fun k => (some k, none))) 0 []).2
    { cap := 3, buf := [some 0, some 1, some 2] } rfl
  ⟨(h.2.1 (wrap (some 0)) 0 rfl rfl (by decide)).2, (h0.1 3 (by decide)).1⟩

/-! ## The sends of the pre-fill loop -/

/-- The pool object and world `NewChannelPool` starts its loop with. -/
def fresh (maxCap : Int) (factory : Option Factory) (calls : Nat) (closed : List Res) : State :=
  { pool := { readers := some { cap := maxCap.toNat, buf := [] }, factory := factory },
    calls := calls, closed := closed }

/-- The loop with `i + m` iterations left, when its first `i` iterations
complete, goes on with the last `m` from the state those leave. -/
theorem fill_split (closeOf : CloseFn) (factory : Option Factory) (m : Nat) (i : Nat) :
    ∀ s : State, (fill closeOf factory i s).1 = .ok →
      fill closeOf factory (i + m) s = fill closeOf factory m (fill closeOf factory i s).2 := by
  induction i with
  | zero => intro s _; simp only [Nat.zero_add, fill]
  | succ i ih =>
    intro s hok
    have hadd : i + 1 + m = (i + m) + 1 := by omega
    rw [hadd]
    cases factory with
    | none => simp only [fill] at hok; cases hok
    | some f =>
      rcases hfc : f s.calls with ⟨conn, e⟩
      cases e with
      | some err =>
        simp only [fill, hfc] at hok
        split at hok <;> cases hok
      | none =>
        cases hr : s.pool.readers with
        | none => simp only [fill, hfc, hr] at hok; cases hok
        | some ch =>
          by_cases hlt : ch.buf.length < ch.cap
          · simp only [fill, hfc, hr, hlt, if_true] at hok ⊢
            exact ih _ hok
          · simp only [fill, hfc, hr, hlt, if_false] at hok
            cases hok

/-- Completed iterations of the loop each add one value to the channel. -/
theorem fill_Len (closeOf : CloseFn) (factory : Option Factory) (i : Nat) :
    ∀ s : State, (fill closeOf factory i s).1 = .ok →
      Len (fill closeOf factory i s).2 = Len s + i := by
  induction i with
  | zero => intro s _; rfl
  | succ i ih =>
    intro s hok
    cases factory with
    | none => simp only [fill] at hok; cases hok
    | some f =>
      rcases hfc : f s.calls with ⟨conn, e⟩
      cases e with
      | some err =>
        simp only [fill, hfc] at hok
        split at hok <;> cases hok
      | none =>
        cases hr : s.pool.readers with
        | none => simp only [fill, hfc, hr] at hok; cases hok
        | some ch =>
          by_cases hlt : ch.buf.length < ch.cap
          · simp only [fill, hfc, hr, hlt, if_true] at hok ⊢
            rw [ih _ hok]
            simp only [Len, setBuf, hr, List.length_append, List.length_singleton]
            omega
          · simp only [fill, hfc, hr, hlt, if_false] at hok
            cases hok

/-- With room for `n` more values the loop's sends all complete. -/
theorem fill_not_stalled (closeOf : CloseFn) (factory : Option Factory) (n : Nat) :
    ∀ (s : State) (ch : Chan), s.pool.readers = some ch → ch.buf.length + n ≤ ch.cap →
      (fill closeOf factory n s).1 ≠ .stalled := by
  induction n with
  | zero => intro s ch _ _ h; simp only [fill] at h; cases h
  | succ n ih =>
    intro s ch hr hcap
    cases factory with
    | none => intro h; simp only [fill] at h; cases h
    | some f =>
      rcases hfc : f s.calls with ⟨conn, e⟩
      cases e with
      | some err =>
        intro h
        simp only [fill, hfc] at h
        split at h <;> cases h
      | none =>
        have hlt : ch.buf.length < ch.cap := by omega
        simp only [fill, hfc, hr, hlt, if_true]
        exact ih _ { ch with buf := ch.buf ++ [conn] } rfl
          (by simp only [List.length_append, List.length_singleton]; omega)

/-- Claim C20. Pre-fill never meets a full buffer: for a valid configuration
(`0 <= initialCap <= maxCap`, `maxCap > 0`) and any factory, `NewChannelPool`
never ends in a send that cannot complete; and when the first `i` iterations
of the loop have completed (`i < initialCap`), the rest of the construction
(reached whenever `make` has returned the channel) runs from a state whose idle
buffer holds exactly `i` values, `i < maxCap`, so the `i`-th send has room. -/
theorem prefill_never_stalls (closeOf : CloseFn) (chanMax : Nat) (initialCap maxCap : Int)
    (factory : Option Factory) (calls : Nat) (closed : List Res)
    (h0 : 0 ≤ initialCap) (h1 : initialCap ≤ maxCap) (h2 : 0 < maxCap) :
    (NewChannelPool closeOf chanMax initialCap maxCap factory calls closed).1 ≠ .stalled ∧
    ∀ i m, i + (m + 1) = initialCap.toNat →
      (fill closeOf factory i (fresh maxCap factory calls closed)).1 = .ok →
      (maxCap ≤ chanMax →
        NewChannelPool closeOf chanMax initialCap maxCap factory calls closed =
          fill closeOf factory (m + 1)
            (fill closeOf factory i (fresh maxCap factory calls closed)).2) ∧
      Len (fill closeOf factory i (fresh maxCap factory calls closed)).2 = i ∧
      (i : Int) < maxCap := by
  have hv : ¬ (initialCap < 0 ∨ maxCap ≤ 0 ∨ initialCap > maxCap) := by omega
  have hnew : ¬ ((chanMax : Int) < maxCap) →
      NewChannelPool closeOf chanMax initialCap maxCap factory calls closed =
        fill closeOf factory initialCap.toNat (fresh maxCap factory calls closed) := by
    intro hm
    simp only [NewChannelPool, hv, hm, if_false, fresh]
  constructor
  · by_cases hm : (chanMax : Int) < maxCap
    · simp only [NewChannelPool, hv, hm, if_false, if_true]
      intro h
      cases h
    · rw [hnew hm]
      exact fill_not_stalled closeOf factory initialCap.toNat _
        { cap := maxCap.toNat, buf := [] } rfl (by simp only [List.length_nil]; omega)
  · intro i m him hok
    refine ⟨?_, ?_, by omega⟩
    · intro hmax
      rw [hnew (by omega), ← him]
      exact fill_split closeOf factory (m + 1) i _ hok
    · rw [fill_Len closeOf factory i _ hok]
      simp only [Len, fresh, List.length_nil, Nat.zero_add]

/-- A run of C20: in `NewChannelPool(3, 3, f)` the last send (`i = 2`) finds two
values queued in a channel of capacity 3, and the construction ends with a
pool. -/
theorem prefill_never_stalls_witness :
    (NewChannelPool (fun _ _ => none) chanMax64 3 3 (some (fun k => (some k, none))) 0 []).1 ≠ .stalled ∧
    Len (fill (fun _ _ => none) (some (fun k => (some k, none))) 2
      (fresh 3 (some (fun k => (some k, none))) 0 [])).2 = 2 ∧
    ((2 : Nat) : Int) < 3 :=
  have h := prefill_never_stalls (fun _ _ => none) chanMax64 3 3
    (some (fun k => (some k, none))) 0 [] (by decide) (by decide) (by decide)
  ⟨h.1, (h.2 2 0 (by decide) (by decide)).2.1, (h.2 2 0 (by decide) (by decide)).2.2⟩

/-! ## The lease as a reader, and its back-reference -/

/-- The `Read` and `Seek` methods of the resources. The repository defines
neither (they belong to the `iocommon.ReadSeekCloser` values the factory
makes), so they are parameters acting on a store `σ` of the resources' own
state: `Read r n` is a read into a slice of length `n`, `Seek r offset whence`
a seek. -/
structure Methods (σ : Type) where
  Read : Res → Nat → σ → (List Nat × Option Error) × σ
  Seek : Res → Int → Int → σ → (Int × Option Error) × σ

/-- The call `conn.Read(p)` on an interface value; `none` is the panic of a
call on nil. -/
def readConn {σ : Type} (m : Methods σ) (conn : Conn) (n : Nat) (w : σ) :
    Option ((List Nat × Option Error) × σ) :=
  match conn with
  | none => none
  | some r => some (m.Read r n w)

/-- The call `conn.Seek(offset, whence)` on an interface value; `none` is the
panic of a call on nil. -/
def seekConn {σ : Type} (m : Methods σ) (conn : Conn) (offset whence : Int) (w : σ) :
    Option ((Int × Option Error) × σ) :=
  match conn with
  | none => none
  | some r => some (m.Seek r offset whence w)

/-- The method `Read` of `PoolReader`, promoted from the embedded
`iocommon.ReadSeekCloser` field. -/
def PoolReader.Read {σ : Type} (m : Methods σ) (p : PoolReader) (n : Nat) (w : σ) :
    Option ((List Nat × Option Error) × σ) :=
  readConn m p.ReadSeekCloser n w

/-- The method `Seek` of `PoolReader`, promoted from the embedded
`iocommon.ReadSeekCloser` field. -/
def PoolReader.Seek {σ : Type} (m : Methods σ) (p : PoolReader) (offset whence : Int) (w : σ) :
    Option ((Int × Option Error) × σ) :=
  seekConn m p.ReadSeekCloser offset whence w

/-- Address of a `channelPool` object. -/
abbrev Addr := Nat

/-- The pool objects by address, with the effects on the collaborators. -/
structure Heap where
  pools : Addr → channelPool
  calls : Nat
  closed : List Res

/-- The state seen by a method whose receiver is the pool at address `a`. -/
def Heap.view (h : Heap) (a : Addr) : State :=
  { pool := h.pools a, calls := h.calls, closed := h.closed }

/-- The heap after a method with receiver `a` has left the state `s`. -/
def Heap.store (h : Heap) (a : Addr) (s : State) : Heap :=
  { pools := Function.update h.pools a s.pool, calls := s.calls, closed := s.closed }

/-- The struct `PoolReader` with its back-reference `c`. -/
structure Lease where
  reader : PoolReader
  c : Addr
deriving DecidableEq, Repr

/-- How `Get` on a pool object ends, the lease carrying its back-reference. -/
inductive LeaseResult where
  | ok (l : Lease)
  | err (e : Error)
  | panicked
deriving DecidableEq, Repr

/-- The method `Get` with receiver the pool at address `a`: its `c.wrap(conn)`
builds `&PoolReader{c: c}` with that receiver. -/
def GetAt (a : Addr) (h : Heap) : LeaseResult × Heap :=
  match Get (h.view a) with
  | (.ok l, s) => (.ok { reader := l, c := a }, h.store a s)
  | (.err e, s) => (.err e, h.store a s)
  | (.panicked, s) => (.panicked, h.store a s)

/-- The method `(p *PoolReader) Close` through the back-reference: `put` runs
on the pool `p.c`. -/
def Lease.Close (closeOf : CloseFn) (l : Lease) (h : Heap) : Option Error × Heap :=
  ((l.reader.Close closeOf (h.view l.c)).1, h.store l.c (l.reader.Close closeOf (h.view l.c)).2)

/-- Modelled from the spec: the resource of the end-to-end example, "a
resource wrapping literal bytes", whose constructor `NewBytesReadCloser` is not
part of the repository. Every resource reads the bytes `data`; the store holds
each resource's read offset. A read at the end returns 0 bytes and `EOF`. -/
def bytesReader (data : List Nat) : Methods (Res → Nat) where
  Read := fun r n off =>
    if data.length ≤ off r then (([], some (.msg "EOF")), off)
    else (((data.drop (off r)).take n, none),
      Function.update off r (off r + ((data.drop (off r)).take n).length))
  Seek := fun r offset whence off =>
    let base : Int := if whence = 0 then 0 else if whence = 1 then off r else data.length
    if base + offset < 0 then ((0, some (.msg "negative position")), off)
    else ((base + offset, none), Function.update off r (base + offset).toNat)

/-- Modelled from the spec: "reading all bytes" from a reader, the library
function `ioutil.ReadAll`: reads of 512 bytes are repeated until one reports an
error; `EOF` ends the reading without error. `none` is a panic of the reader or
the end of the fuel. -/
def ReadAll {σ : Type} (read : Nat → σ → Option ((List Nat × Option Error) × σ)) :
    Nat → List Nat → σ → Option (List Nat × Option Error)
  | 0, _, _ => none
  | fuel + 1, acc, w =>
    match read 512 w with
    | none => none
    | some ((bs, none), w1) => ReadAll read fuel (acc ++ bs) w1
    | some ((bs, some e), _) =>
      if e = .msg "EOF" then some (acc ++ bs, none) else some (acc ++ bs, some e)

/-- The bytes of the test fixture `testData = []byte("test data")`. -/
def testData : List Nat := [116, 101, 115, 116, 32, 100, 97, 116, 97]

/-- A lease returned by `Get` is `wrap` of the channel's front value, a non-nil
resource, or of the result of the factory call made on an empty buffer. -/
theorem Get_ok_source {s s1 : State} {l : PoolReader} (hget : Get s = (.ok l, s1)) :
    (∃ ch r rest, s.pool.readers = some ch ∧ ch.buf = some r :: rest ∧ l = wrap (some r)) ∨
    (∃ ch f, s.pool.readers = some ch ∧ ch.buf = [] ∧ s.pool.factory = some f ∧
      (f s.calls).2 = none ∧ l = wrap (f s.calls).1) := by
  cases hr : s.pool.readers with
  | none =>
    simp only [Get, hr] at hget
    injection hget with h1 _
    cases h1
  | some ch =>
    rcases hb : ch.buf with _ | ⟨conn, rest⟩
    · cases hf : s.pool.factory with
      | none =>
        simp only [Get, hr, hb, hf] at hget
        injection hget with h1 _
        cases h1
      | some f =>
        rcases hfc : f s.calls with ⟨conn, e⟩
        cases e with
        | some err =>
          simp only [Get, hr, hb, hf, hfc] at hget
          injection hget with h1 _
          cases h1
        | none =>
          simp only [Get, hr, hb, hf, hfc] at hget
          injection hget with h1 _
          injection h1 with h1
          exact Or.inr ⟨ch, f, rfl, hb, rfl, by rw [hfc], by rw [hfc]; exact h1.symm⟩
    · cases conn with
      | none =>
        simp only [Get, hr, hb] at hget
        injection hget with h1 _
        cases h1
      | some r =>
        simp only [Get, hr, hb] at hget
        injection hget with h1 _
        injection h1 with h1
        exact Or.inl ⟨ch, r, rest, rfl, hb, h1.symm⟩

theorem ReadAll_testData (fuel : Nat) (hfuel : 2 ≤ fuel) :
    ReadAll ((wrap (some 0)).Read (bytesReader testData)) fuel [] (fun _ => 0) =
      some (testData, none) := by
  obtain ⟨k, rfl⟩ : ∃ k, fuel = k + 2 := ⟨fuel - 2, by omega⟩
  rfl

/-- Claim C15. Pass-through: the value returned by a successful `Get()` on the
pool at address `a` is a `PoolReader` whose back-reference is `a` (its `Close`
leaves every other pool object alone), whose unusable flag is false and which
wraps exactly the resource taken from the front of the idle buffer or the
result of the factory call; `Read` and `Seek` on it are `Read` and `Seek` on
the wrapped value. In particular, for `NewChannelPool(0, 30, f)` with `f`
yielding readers over the bytes "test data" (on a platform whose `make` accepts
capacity 30), `Get()` returns a lease and reading it to the end yields exactly
"test data" and no error. -/
theorem Get_lease_pass_through (closeOf : CloseFn) (a : Addr) (h h1 : Heap) (L : Lease)
    (hget : GetAt a h = (.ok L, h1)) :
    L.c = a ∧ L.reader.unusable = false ∧
    ((∃ ch r rest, (h.pools a).readers = some ch ∧ ch.buf = some r :: rest ∧
        L.reader.ReadSeekCloser = some r) ∨
      (∃ ch f, (h.pools a).readers = some ch ∧ ch.buf = [] ∧ (h.pools a).factory = some f ∧
        (f h.calls).2 = none ∧ L.reader.ReadSeekCloser = (f h.calls).1)) ∧
    (∀ b, b ≠ a → (L.Close closeOf h1).2.pools b = h1.pools b) ∧
    (∀ (σ : Type) (m : Methods σ) (n : Nat) (w : σ),
      L.reader.Read m n w = readConn m L.reader.ReadSeekCloser n w) ∧
    (∀ (σ : Type) (m : Methods σ) (offset whence : Int) (w : σ),
      L.reader.Seek m offset whence w = seekConn m L.reader.ReadSeekCloser offset whence w) ∧
    (∀ chanMax : Nat, 30 ≤ chanMax →
      (Get (NewChannelPool closeOf chanMax 0 30 (some (fun k => (some k, none))) 0 []).2).1 =
        .ok (wrap (some 0))) ∧
    (∀ fuel, 2 ≤ fuel →
      ReadAll ((wrap (some 0)).Read (bytesReader testData)) fuel [] (fun _ => 0) =
        some (testData, none)) := by
  unfold GetAt at hget
  rcases hg : Get (h.view a) with ⟨res, s1⟩
  rw [hg] at hget
  cases res with
  | err e =>
    simp only at hget
    injection hget with e1 _
    cases e1
  | panicked =>
    simp only at hget
    injection hget with e1 _
    cases e1
  | ok l =>
    simp only at hget
    injection hget with e1 e2
    injection e1 with e1
    subst e1
    have hsrc := Get_ok_source hg
    refine ⟨rfl, ?_, ?_, ?_, fun _ _ _ _ => rfl, fun _ _ _ _ _ => rfl, ?_, ReadAll_testData⟩
    rotate_right
    · intro chanMax hmax
      have hm : ¬ ((chanMax : Int) < 30) := by omega
      simp only [NewChannelPool, hm, if_false]
      rfl
    · rcases hsrc with ⟨_, _, _, _, _, hl⟩ | ⟨_, _, _, _, _, _, hl⟩ <;> rw [hl] <;> rfl
    · rcases hsrc with ⟨ch, r, rest, hr, hb, hl⟩ | ⟨ch, f, hr, hb, hf, hnone, hl⟩
      · exact Or.inl ⟨ch, r, rest, hr, hb, by rw [hl]; rfl⟩
      · exact Or.inr ⟨ch, f, hr, hb, hf, hnone, by rw [hl]; rfl⟩
    · intro b hb
      simp only [Lease.Close, Heap.store, Function.update_noteq hb]

/-- The test `TestPoolWriteRead`: on the pool built by `NewChannelPool(0, 30, f)`
at address 1, `Get` returns a lease with back-reference 1 on the new resource
0, and reading it to the end gives the bytes of "test data". -/
theorem Get_lease_pass_through_witness :
    ({ reader := wrap (some 0), c := 1 } : Lease).c = 1 ∧
    (GetAt 1
      { pools := fun _ =>
          (NewChannelPool (fun _ _ => none) chanMax64 0 30 (some (fun k => (some k, none))) 0 []).2.pool,
        calls := 0, closed := [] }).1 = .ok { reader := wrap (some 0), c := 1 } ∧
    ReadAll ((wrap (some 0)).Read (bytesReader testData)) 2 [] (fun _ => 0) =
      some ("test data".toList.map Char.toNat, none) :=
  have h := Get_lease_pass_through (fun _ _ => none) 1
    { pools := fun _ =>
        (NewChannelPool (fun _ _ => none) chanMax64 0 30 (some (fun k => (some k, none))) 0 []).2.pool,
      calls := 0, closed := [] }
    (GetAt 1
      { pools := fun _ =>
          (NewChannelPool (fun _ _ => none) chanMax64 0 30 (some (fun k => (some k, none))) 0 []).2.pool,
        calls := 0, closed := [] }).2
    { reader := wrap (some 0), c := 1 } rfl
  ⟨h.1, rfl, h.2.2.2.2.2.2.2 2 (by decide)⟩

end rpool
